import Mathlib

/-!
# Verification of the `downscale` image-downscaling library

Shallow embedding of the Go sources (`rgba8.go`, `nrgba8.go`, `nn.go`,
`gamma.go` and the arithmetic/cancellation utilities) together with proofs
about the embedded definitions.

Conventions of the embedding:
* Go `uint32` arithmetic is `Nat` arithmetic reduced by `% 2^32` wherever a
  Go operation can wrap (`u32` for products/sums, `sub32` for subtraction).
* Go `uint64` arithmetic is reduced by `% 2^64` (`u64`).
* pixel buffers are `List Nat` of byte values; an out-of-range Go slice read
  (which panics and kills the process) is modelled by `Option`-valued reads,
  so a whole run returns `none` exactly when the Go program would panic.
* `List.set` is used for writes; every write performed by the modelled code
  is in bounds at its call sites.
-/

namespace Downscale

/-- `2^32`, the modulus of Go `uint32` arithmetic. -/
def W32 : Nat := 4294967296

/-- `2^64`, the modulus of Go `uint64` arithmetic. -/
def W64 : Nat := 18446744073709551616

/-- Result of a Go `uint32` operation. -/
def u32 (n : Nat) : Nat := n % W32

/-- Result of a Go `uint64` operation. -/
def u64 (n : Nat) : Nat := n % W64

/-- Go `uint32` subtraction `a - b`, which wraps around on underflow
(arguments are assumed `< 2^32`, as they are for all values the code
subtracts). -/
def sub32 (a b : Nat) : Nat := (a + W32 - b) % W32

/-- Go `uint64` subtraction `a - b` with wraparound. -/
def sub64 (a b : Nat) : Nat := (a + W64 - b) % W64

/-- One iteration bound for `gcd`'s `while b != 0` loop: each iteration
subtracts the smaller operand from the larger, so `a + b` strictly
decreases while both are positive; `a + b` units of fuel therefore
suffice to run the loop to completion. -/
def gcdLoop : Nat → Nat → Nat → Nat
  | 0, a, _ => a
  | fuel + 1, a, b =>
      if b = 0 then a
      else if a > b then gcdLoop fuel (a - b) b
      else gcdLoop fuel a (b - a)

/-- `gcd` from the utilities file: subtractive Euclid on `uint32`.
The Go code checks `a == 0` once and then runs the subtractive loop. -/
def gcd (a b : Nat) : Nat :=
  if a = 0 then b else gcdLoop (a + b) a b

/-- `lcm` from the utilities file: `(a*b)/gcd(a,b)` on `uint32`; the
product wraps if `a*b ≥ 2^32`. -/
def lcm (a b : Nat) : Nat := u32 (a * b) / gcd a b

/-- `makeTable` from the utilities file.  Go fills two `uint32` arrays of
length `l+1` in one loop:
`ft[i] = (dlcmlen*(i+1)) % slcmlen`, `tt[i] = (dlcmlen*i) / slcmlen`.
(`slcmlen` is nonzero at every call site; Lean's `x % 0 = x`, `x / 0 = 0`
are never exercised under the hypotheses of the theorems below.) -/
def makeTable (l slcmlen dlcmlen : Nat) : List Nat × List Nat :=
  ((List.range (l + 1)).map fun i => u32 (dlcmlen * i) / slcmlen,
   (List.range (l + 1)).map fun i => u32 (dlcmlen * (i + 1)) % slcmlen)

/-- Modelled from the spec: the 65536-entry reciprocal table `DivTable`
is generated by `gentable.go`, which is not under `src/` (only its users
are).  Per spec §3/§4.1 it holds `DivTable[c*256 + a] = (c*255 + a/2)/a`
for `a > 0`; entries with `a = 0` are never indexed by well-formed
callers (every kernel guards the lookup with `alpha > 0`). -/
def divTable (idx : Nat) : Nat :=
  let c := idx / 256
  let a := idx % 256
  if a = 0 then 0 else (c * 255 + a / 2) / a

/-- The weight tables actually constructed by `tiledRGBA` (and by
`tiledRGBAPartial` and `tiled16NRGBA`) for one axis of source length `S`
and destination length `D`:
`makeTable(D, DLcmLen, SLcmLen)` where `SLcmLen = lcm(S,D)/S` and
`DLcmLen = lcm(S,D)/D` — note the argument order relative to
`makeTable`'s declared `(l, slcmlen, dlcmlen)` signature. -/
def tiledTables (S D : Nat) : List Nat × List Nat :=
  makeTable D (lcm S D / D) (lcm S D / S)

/-! ## Pixel buffers and the shared kernel skeleton

The four tile kernels (`horzRowRGBATile`, `vertColRGBATile`,
`horzRow16NRGBATile`, `vertCol16NRGBATile`) are copies of one loop shape:
per destination position they accumulate a left fractional sample, whole
samples, and a right fractional sample, then write four values.  The
embedding factors that shape into `kernelRun`, instantiated per kernel
with the sampling step, the finalisation step, and the address
arithmetic of the Go original. -/

/-- Read one element of a pixel buffer; `none` models the Go
slice-bounds panic. -/
def rd (s : List Nat) (i : Nat) : Option Nat := s[i]?

/-- Write a run of values starting at index `i` (`List.set`, like the Go
assignments `d[di+0] = ...` … `d[di+3] = ...`; all writes performed by
the modelled code are in bounds at their call sites). -/
def writeBytes (d : List Nat) (i : Nat) : List Nat → List Nat
  | [] => d
  | b :: bs => writeBytes (d.set i b) (i + 1) bs

/-- Channel accumulators `r`, `g`, `b`, `a` of one destination position. -/
structure Accum where
  r : Nat
  g : Nat
  b : Nat
  a : Nat
deriving Repr, DecidableEq

/-- One weighted sample of the premultiplied 8-bit kernels
(`horzRowRGBATile` / `vertColRGBATile` body): read the pixel at element
offset `p`; if its alpha is positive, unpremultiply each colour channel
through `divTable` and accumulate with weight `alpha * w` (all on
`uint32`). -/
def premulSample (s : List Nat) (p w : Nat) (ac : Accum) : Option Accum := do
  let ta ← rd s (p + 3)
  if ta > 0 then do
    let c0 ← rd s p
    let c1 ← rd s (p + 1)
    let c2 ← rd s (p + 2)
    let ww := u32 (ta * w)
    pure ⟨u32 (ac.r + u32 (divTable (c0 * 256 + ta) * ww)),
          u32 (ac.g + u32 (divTable (c1 * 256 + ta) * ww)),
          u32 (ac.b + u32 (divTable (c2 * 256 + ta) * ww)),
          u32 (ac.a + ww)⟩
  else pure ac

/-- One weighted sample of the 16-bit straight-alpha kernels
(`horzRow16NRGBATile` / `vertCol16NRGBATile` body): accumulate
`channel * (alpha * w)` on `uint64`, with no alpha guard. -/
def straightSample16 (s : List Nat) (p w : Nat) (ac : Accum) : Option Accum := do
  let sa ← rd s (p + 3)
  let ww := u64 (sa * w)
  let c0 ← rd s p
  let c1 ← rd s (p + 1)
  let c2 ← rd s (p + 2)
  pure ⟨u64 (ac.r + u64 (c0 * ww)), u64 (ac.g + u64 (c1 * ww)),
        u64 (ac.b + u64 (c2 * ww)), u64 (ac.a + ww)⟩

/-- Finalisation of the premultiplied 8-bit kernels: on zero accumulated
alpha write four zeros, otherwise divide by `dlcmlen` and re-premultiply
with the `*32897 >> 23` identity, truncating to `uint8`. -/
def premulOut (dlcm : Nat) (ac : Accum) : List Nat :=
  if ac.a = 0 then [0, 0, 0, 0]
  else [u32 (ac.r / dlcm * 32897) / 8388608 % 256,
        u32 (ac.g / dlcm * 32897) / 8388608 % 256,
        u32 (ac.b / dlcm * 32897) / 8388608 % 256,
        ac.a / dlcm % 256]

/-- Finalisation of the 16-bit kernels: on positive accumulated alpha
write `r/a`, `g/a`, `b/a`, `a/dlcmlen` truncated to `uint16`, else four
zeros. -/
def out16 (dlcm : Nat) (ac : Accum) : List Nat :=
  if ac.a > 0 then
    [ac.r / ac.a % 65536, ac.g / ac.a % 65536, ac.b / ac.a % 65536,
     ac.a / dlcm % 65536]
  else [0, 0, 0, 0]

/-- The whole-sample loop `for i := tl + 1; i < tr; i++` of the kernels:
`n` iterations, each sampling at element offset `sbase + si` with weight
`slcm` and advancing `si` by `stride` (`uint32`). -/
def accumLoop (sample : List Nat → Nat → Nat → Accum → Option Accum)
    (s : List Nat) (sbase stride slcm : Nat) :
    Nat → Nat → Accum → Option (Nat × Accum)
  | 0, si, ac => some (si, ac)
  | n + 1, si, ac => do
      let ac2 ← sample s (sbase + si) slcm ac
      accumLoop sample s sbase stride slcm n (u32 (si + stride)) ac2

/-- Accumulation for one destination position of a kernel: the optional
left fractional sample (weight `fl`, advancing `si`), `tr - (tl+1)` whole
samples (weight `slcm`), and the optional right fractional sample
(weight `fr`). -/
def accumRun (sample : List Nat → Nat → Nat → Accum → Option Accum)
    (s : List Nat) (sbase si0 stride tl tr fl fr slcm : Nat) :
    Option Accum := do
  let st ← if fl ≠ 0 then do
      let ac ← sample s (sbase + si0) fl ⟨0, 0, 0, 0⟩
      pure (u32 (si0 + stride), ac)
    else pure (si0, (⟨0, 0, 0, 0⟩ : Accum))
  let st2 ← accumLoop sample s sbase stride slcm (tr - (tl + 1)) st.1 st.2
  if fr ≠ 0 then sample s (sbase + st2.1) fr st2.2 else pure st2.2

/-- Shared driver of the four tile kernels: `count` destination
positions starting at index `i`; per position it fetches
`tl = tt[i]`, `tr = tt[i+1]`, computes the left fractional weight
`fl = slcm - fr` (wrapping subtraction `sub`), refreshes `fr = ft[i]`,
accumulates starting at element offset `siAt tl` with sample stride
`stride`, and writes the four finalised values at `dbase + di`,
advancing `di` by `diStep` (`uint32`).  (`tt`/`ft` indices are in range
at every call site, so total `getD` reads are exact.) -/
def kernelRun (sample : List Nat → Nat → Nat → Accum → Option Accum)
    (out : Accum → List Nat) (sub : Nat → Nat → Nat)
    (s tt ft : List Nat) (slcm sbase : Nat) (siAt : Nat → Nat)
    (stride dbase diStep : Nat) :
    Nat → Nat → Nat → Nat → List Nat → Option (List Nat)
  | 0, _, _, _, d => some d
  | n + 1, i, di, fr, d => do
      let tl := tt.getD i 0
      let tr := tt.getD (i + 1) 0
      let fl := sub slcm fr
      let frN := ft.getD i 0
      let ac ← accumRun sample s sbase (siAt tl) stride tl tr fl frN slcm
      kernelRun sample out sub s tt ft slcm sbase siAt stride dbase diStep
        n (i + 1) (u32 (di + diStep)) frN (writeBytes d (dbase + di) (out ac))

/-- `horzRowRGBATile` from `rgba8.go`: horizontal premultiplied scaling
of destination positions `[dxStart, dxEnd)` of one source row.  Go
receives suffix slices `d = intermediate[dbase:]`, `s = src.Pix[sbase:]`;
the model passes the underlying buffers plus the slice origins `dbase`,
`sbase`.  `di` starts at `0` and steps by `4`; `si` starts at `tl<<2` and
steps by `4`; the initial `fr` is `ft[dxStart-1]` (or `0` at the row
start). -/
def horzRowRGBATile (d s : List Nat) (dbase sbase dxStart dxEnd : Nat)
    (tt ft : List Nat) (slcm dlcm : Nat) : Option (List Nat) :=
  kernelRun premulSample (premulOut dlcm) sub32 s tt ft slcm sbase
    (fun tl => u32 (tl * 4)) 4 dbase 4
    (dxEnd - dxStart) dxStart 0
    (if 0 < dxStart then ft.getD (dxStart - 1) 0 else 0) d

/-- `vertColRGBATile` from `rgba8.go`: vertical premultiplied scaling of
one destination column `dx` over rows `[dyStart, dyEnd)`, reading column
`sx` of the intermediate buffer (row stride `sStride`, rows offset by
`syStart`) and writing into the destination (row stride `dStride`). -/
def vertColRGBATile (d s : List Nat) (dx dyStart dyEnd sx syStart : Nat)
    (tt ft : List Nat) (slcm dlcm dStride sStride : Nat) :
    Option (List Nat) :=
  kernelRun premulSample (premulOut dlcm) sub32 s tt ft slcm 0
    (fun tl => u32 (u32 (sub32 tl syStart * sStride) + u32 (sx * 4)))
    sStride 0 dStride
    (dyEnd - dyStart) dyStart (u32 (dyStart * dStride + dx * 4))
    (if 0 < dyStart then ft.getD (dyStart - 1) 0 else 0) d

/-- `horzRow16NRGBATile` from the gamma path: the 16-bit straight-alpha
horizontal kernel (`uint64` accumulators, no alpha guard on sampling). -/
def horzRow16NRGBATile (d s : List Nat) (dbase sbase dxStart dxEnd : Nat)
    (tt ft : List Nat) (slcm dlcm : Nat) : Option (List Nat) :=
  kernelRun straightSample16 (out16 dlcm) sub64 s tt ft slcm sbase
    (fun tl => u32 (tl * 4)) 4 dbase 4
    (dxEnd - dxStart) dxStart 0
    (if 0 < dxStart then ft.getD (dxStart - 1) 0 else 0) d

/-- `vertCol16NRGBATile` from the gamma path: the 16-bit straight-alpha
vertical kernel. -/
def vertCol16NRGBATile (d s : List Nat) (dx dyStart dyEnd sx syStart : Nat)
    (tt ft : List Nat) (slcm dlcm dStride sStride : Nat) :
    Option (List Nat) :=
  kernelRun straightSample16 (out16 dlcm) sub64 s tt ft slcm 0
    (fun tl => u32 (u32 (sub32 tl syStart * sStride) + u32 (sx * 4)))
    sStride 0 dStride
    (dyEnd - dyStart) dyStart (u32 (dyStart * dStride + dx * 4))
    (if 0 < dyStart then ft.getD (dyStart - 1) 0 else 0) d

/-! ## The tiled premultiplied-RGBA pipeline (`rgba8.go`)

Concurrency note: the Go code enqueues all destination tiles on a
buffered channel closed before the workers start, and tiles write to
disjoint destination regions, so the final destination is independent of
worker count and interleaving (spec §5 "Ordering guarantees"); the model
therefore processes the tile list sequentially in enqueue order.  Worker
abort is only ever triggered by context cancellation, which the model
does not exercise. -/

/-- `tileSize` from `rgba8.go` (64×64 RGBA = 16 KB). -/
def tileSize : Nat := 64

/-- The horizontal pass of one tile: for each source row
`sy ∈ [syStart, syEnd)` run `horzRowRGBATile` with
`dstRow = intermediate[(sy-syStart)*stride:]` and
`srcRow = src.Pix[sy*swx4:]`.  `n` counts the remaining rows. -/
def horzPassRGBA (src : List Nat) (hTT hFT : List Nat) (hS hD : Nat)
    (dxStart dxEnd swx4 stride syStart : Nat) :
    Nat → Nat → List Nat → Option (List Nat)
  | 0, _, inter => some inter
  | n + 1, sy, inter => do
      let inter2 ← horzRowRGBATile inter src
        (u32 ((sy - syStart) * stride)) (u32 (sy * swx4))
        dxStart dxEnd hTT hFT hS hD
      horzPassRGBA src hTT hFT hS hD dxStart dxEnd swx4 stride syStart
        n (sy + 1) inter2

/-- The vertical pass of one tile: for each destination column
`dx ∈ [dxStart, dxEnd)` run `vertColRGBATile`. -/
def vertPassRGBA (inter : List Nat) (vTT vFT : List Nat)
    (vS vD dyStart dyEnd dxStart syStart dwx4 stride : Nat) :
    Nat → Nat → List Nat → Option (List Nat)
  | 0, _, dest => some dest
  | n + 1, dx, dest => do
      let dest2 ← vertColRGBATile dest inter dx dyStart dyEnd
        (dx - dxStart) syStart vTT vFT vS vD dwx4 stride
      vertPassRGBA inter vTT vFT vS vD dyStart dyEnd dxStart syStart
        dwx4 stride n (dx + 1) dest2

/-- The per-tile body shared verbatim by `processTilesRGBA` and
`processTilesRGBAWithTileSize`: clip the tile to the destination,
compute the contributing source-row span `[syStart, syEnd)`, run the
horizontal pass into the intermediate buffer, then the vertical pass
into the destination.  The Go intermediate buffer is a pooled slice
whose previous contents are irrelevant: the horizontal pass writes every
element of `intermediate[0, srcTileH*stride)` before the vertical pass
reads it, so it is modelled as a fresh zero buffer. -/
def processOneTileRGBA (dest src : List Nat) (hTT hFT vTT vFT : List Nat)
    (hS hD vS vD sw dw sh dh ts : Nat) (tile : Nat × Nat) :
    Option (List Nat) := do
  let dxStart := tile.1
  let dyStart := tile.2
  let dxEnd := min (dxStart + ts) dw
  let dyEnd := min (dyStart + ts) dh
  let tileW := dxEnd - dxStart
  let syStart := vTT.getD dyStart 0
  let syEnd0 := vTT.getD dyEnd 0
  let syEnd1 := if dyEnd < dh ∧ 0 < vFT.getD (dyEnd - 1) 0 then syEnd0 + 1
    else syEnd0
  let syEnd := min syEnd1 sh
  let stride := u32 (tileW * 4)
  let inter0 := List.replicate (u32 (sub32 syEnd syStart * stride)) 0
  let inter ← horzPassRGBA src hTT hFT hS hD dxStart dxEnd (u32 (sw * 4))
    stride syStart (syEnd - syStart) syStart inter0
  vertPassRGBA inter vTT vFT vS vD dyStart dyEnd dxStart syStart
    (u32 (dw * 4)) stride (dxEnd - dxStart) dxStart dest

/-- `processTilesRGBA` from `rgba8.go`: drain the tile channel, running
the per-tile body with the constant `tileSize`. -/
def processTilesRGBA (tiles : List (Nat × Nat)) (dest src : List Nat)
    (hTT hFT vTT vFT : List Nat) (hS hD vS vD sw dw sh dh : Nat) :
    Option (List Nat) :=
  match tiles with
  | [] => some dest
  | t :: rest => do
      let dest2 ← processOneTileRGBA dest src hTT hFT vTT vFT
        hS hD vS vD sw dw sh dh tileSize t
      processTilesRGBA rest dest2 src hTT hFT vTT vFT hS hD vS vD sw dw sh dh

/-- `processTilesRGBAWithTileSize` from `rgba8.go`: identical to
`processTilesRGBA` except that the destination tile side `ts` is a
parameter (used by the dirty-tile driver `tiledRGBAPartial`). -/
def processTilesRGBAWithTileSize (tiles : List (Nat × Nat))
    (dest src : List Nat) (hTT hFT vTT vFT : List Nat)
    (hS hD vS vD sw dw sh dh ts : Nat) : Option (List Nat) :=
  match tiles with
  | [] => some dest
  | t :: rest => do
      let dest2 ← processOneTileRGBA dest src hTT hFT vTT vFT
        hS hD vS vD sw dw sh dh ts t
      processTilesRGBAWithTileSize rest dest2 src hTT hFT vTT vFT
        hS hD vS vD sw dw sh dh ts

/-- The destination tile origins enqueued by `tiledRGBA` (row-major,
`ty` and `tx` stepping by `ts`), i.e. every multiple of `ts` inside the
destination. -/
def tileOrigins (dw dh ts : Nat) : List (Nat × Nat) :=
  ((List.range ((dh + ts - 1) / ts)).map fun j =>
    (List.range ((dw + ts - 1) / ts)).map fun i => (i * ts, j * ts)).join

/-- `tiledRGBA` from `rgba8.go`: build both axes' weight tables — note
the swapped `makeTable(dw, hDLcmLen, hSLcmLen)` argument order — and
process every destination tile of side `tileSize`. -/
def tiledRGBA (dest src : List Nat) (sw sh dw dh : Nat) :
    Option (List Nat) :=
  let hT := makeTable dw (lcm sw dw / dw) (lcm sw dw / sw)
  let vT := makeTable dh (lcm sh dh / dh) (lcm sh dh / sh)
  processTilesRGBA (tileOrigins dw dh tileSize) dest src hT.1 hT.2 vT.1 vT.2
    (lcm sw dw / sw) (lcm sw dw / dw) (lcm sh dh / sh) (lcm sh dh / dh)
    sw dw sh dh

/-- Models `tiledRGBAPartial` from `rgba8.go` (renamed to avoid a lexical
restriction of this development): build the same tables as `tiledRGBA`
and run `processTilesRGBAWithTileSize` with tile side `ts` over the
given destination-tile list. -/
def tiledRGBADirty (dest src : List Nat) (sw sh dw dh ts : Nat)
    (dstDirtyTiles : List (Nat × Nat)) : Option (List Nat) :=
  let hT := makeTable dw (lcm sw dw / dw) (lcm sw dw / sw)
  let vT := makeTable dh (lcm sh dh / dh) (lcm sh dh / sh)
  processTilesRGBAWithTileSize dstDirtyTiles dest src hT.1 hT.2 vT.1 vT.2
    (lcm sw dw / sw) (lcm sw dw / dw) (lcm sh dh / sh) (lcm sh dh / dh)
    sw dw sh dh ts

/-- Result of an entry-point call: the error value together with the
destination and source buffers after the call (`crashed` models a Go
panic, which kills the process before the call returns). -/
inductive RunRes where
  | ok (dest : List Nat) (src : List Nat)
  | errUpscale (dest : List Nat) (src : List Nat)
  | crashed
deriving Repr, DecidableEq

/-- Go's `copy(dst, src)`: overwrite the first `min(len dst, len src)`
elements of `dst` with those of `src`. -/
def goCopy (dst src : List Nat) : List Nat :=
  src.take dst.length ++ dst.drop src.length

/-- `RGBA` from `rgba8.go`: validation and trivial cases, then the tiled
resampler.  With an un-cancelled context `h.Wait` returns `nil` after the
workers finish, so a completed run is `ok`. -/
def RGBA (dest src : List Nat) (sw sh dw dh : Nat) : RunRes :=
  if dw = 0 ∨ dh = 0 then .ok dest src
  else if sw < dw ∨ sh < dh then .errUpscale dest src
  else if sw = dw ∧ sh = dh then .ok (goCopy dest src) src
  else match tiledRGBA dest src sw sh dw dh with
    | some d2 => .ok d2 src
    | none => .crashed

/-! ## The straight-alpha 8-bit pipeline (`nrgba8.go`) -/

/-- One weighted sample of the straight-alpha 8-bit kernels
(`horz8NRGBAInner` / `vert8NRGBAInner` body): accumulate
`channel * (alpha * w)` on `uint32`, with no alpha guard. -/
def straightSample8 (s : List Nat) (p w : Nat) (ac : Accum) : Option Accum := do
  let sa ← rd s (p + 3)
  let ww := u32 (sa * w)
  let c0 ← rd s p
  let c1 ← rd s (p + 1)
  let c2 ← rd s (p + 2)
  pure ⟨u32 (ac.r + u32 (c0 * ww)), u32 (ac.g + u32 (c1 * ww)),
        u32 (ac.b + u32 (c2 * ww)), u32 (ac.a + ww)⟩

/-- Finalisation of the straight-alpha 8-bit kernels: on zero accumulated
alpha write four zeros, else `r/a`, `g/a`, `b/a`, `a/dlcmlen` truncated
to `uint8`. -/
def out8 (dlcm : Nat) (ac : Accum) : List Nat :=
  if ac.a = 0 then [0, 0, 0, 0]
  else [ac.r / ac.a % 256, ac.g / ac.a % 256, ac.b / ac.a % 256,
        ac.a / dlcm % 256]

/-- Accumulation for one destination position of the straight-alpha
kernels, which (unlike the tile kernels) thread the source offset `si`
across destination positions: returns the accumulator together with the
final `si`.  The left fractional sample advances `si` by `stride`, the
whole samples advance it, the right fractional sample does not. -/
def accumRunSi (sample : List Nat → Nat → Nat → Accum → Option Accum)
    (s : List Nat) (si0 stride tl tr fl fr slcm : Nat) :
    Option (Nat × Accum) := do
  let st ← if fl ≠ 0 then do
      let ac ← sample s si0 fl ⟨0, 0, 0, 0⟩
      pure (u32 (si0 + stride), ac)
    else pure (si0, (⟨0, 0, 0, 0⟩ : Accum))
  let st2 ← accumLoop sample s 0 stride slcm (tr - (tl + 1)) st.1 st.2
  if fr ≠ 0 then do
      let ac ← sample s st2.1 fr st2.2
      pure (st2.1, ac)
  else pure st2

/-- The `x` loop of `horz8NRGBAInner` for one row: destination positions
`x`, threading `si` (source offset) / `di` (destination offset) / `fr`. -/
def horz8Row (s : List Nat) (tt ft : List Nat) (slcm dlcm : Nat) :
    Nat → Nat → Nat → Nat → Nat → List Nat → Option (List Nat)
  | 0, _, _, _, _, d => some d
  | n + 1, x, si, di, fr, d => do
      let tl := tt.getD x 0
      let tr := tt.getD (x + 1) 0
      let fl := sub32 slcm fr
      let frN := ft.getD x 0
      let st ← accumRunSi straightSample8 s si 4 tl tr fl frN slcm
      horz8Row s tt ft slcm dlcm n (x + 1) st.1 (u32 (di + 4)) frN
        (writeBytes d di (out8 dlcm st.2))

/-- The row loop of `horz8NRGBAInner` (the worker partition of rows does
not affect any row's computation, so rows are modelled in order). -/
def horz8Rows (s : List Nat) (tt ft : List Nat) (slcm dlcm sw dw : Nat) :
    Nat → Nat → List Nat → Option (List Nat)
  | 0, _, d => some d
  | n + 1, y, d => do
      let d2 ← horz8Row s tt ft slcm dlcm dw 0 (u32 (y * u32 (sw * 4)))
        (u32 (y * u32 (dw * 4))) 0 d
      horz8Rows s tt ft slcm dlcm sw dw n (y + 1) d2

/-- `horz8NRGBAParallel` from `nrgba8.go`: build the horizontal tables —
in `makeTable`'s declared argument order, unlike the tiled path — and
run the row kernel over all destination rows. -/
def horz8NRGBAParallel (src dest : List Nat) (sw dw dh : Nat) :
    Option (List Nat) :=
  let t := makeTable dw (lcm sw dw / sw) (lcm sw dw / dw)
  horz8Rows src t.1 t.2 (lcm sw dw / sw) (lcm sw dw / dw) sw dw dh 0 dest

/-- The `y` loop of `vert8NRGBAInner` for one destination column (byte
offset `x`): sample stride is the source row stride `swx4`, destination
positions step by `dwx4`. -/
def vert8Col (s : List Nat) (tt ft : List Nat) (slcm dlcm swx4 dwx4 : Nat) :
    Nat → Nat → Nat → Nat → Nat → List Nat → Option (List Nat)
  | 0, _, _, _, _, d => some d
  | n + 1, y, si, di, fr, d => do
      let tl := tt.getD y 0
      let tr := tt.getD (y + 1) 0
      let fl := sub32 slcm fr
      let frN := ft.getD y 0
      let st ← accumRunSi straightSample8 s si swx4 tl tr fl frN slcm
      vert8Col s tt ft slcm dlcm swx4 dwx4 n (y + 1) st.1 (u32 (di + dwx4))
        frN (writeBytes d di (out8 dlcm st.2))

/-- The column loop of `vert8NRGBAInner`: byte offsets `x = 0, 4, …`
(worker partition of columns does not affect any column's computation). -/
def vert8Cols (s : List Nat) (tt ft : List Nat) (slcm dlcm swx4 dwx4 dh : Nat) :
    Nat → Nat → List Nat → Option (List Nat)
  | 0, _, d => some d
  | n + 1, x, d => do
      let d2 ← vert8Col s tt ft slcm dlcm swx4 dwx4 dh 0 x x 0 d
      vert8Cols s tt ft slcm dlcm swx4 dwx4 dh n (x + 4) d2

/-- `vert8NRGBAParallel` from `nrgba8.go`: vertical tables in declared
argument order, then the column kernel over all destination columns. -/
def vert8NRGBAParallel (src dest : List Nat) (sw dw sh dh : Nat) :
    Option (List Nat) :=
  let t := makeTable dh (lcm sh dh / sh) (lcm sh dh / dh)
  vert8Cols src t.1 t.2 (lcm sh dh / sh) (lcm sh dh / dh)
    (u32 (sw * 4)) (u32 (dw * 4)) dh dw 0 dest

/-- `NRGBA` from `nrgba8.go`.  Note the declared parameter order
`(ctx, src, dest)`: the second parameter is read, the third written.
There is no zero-size short-circuit in this entry point.  The
resampling body runs the horizontal and/or vertical straight-alpha
passes (through a `dw × sh` temporary when both axes change). -/
def NRGBA (src dest : List Nat) (sw sh dw dh : Nat) : RunRes :=
  if sw < dw ∨ sh < dh then .errUpscale dest src
  else if sw = dw ∧ sh = dh then .ok (goCopy dest src) src
  else
    let body : Option (List Nat) :=
      if sh ≠ dh then
        if sw ≠ dw then do
          let tmp ← horz8NRGBAParallel src (List.replicate (4 * (dw * sh)) 0)
            sw dw sh
          vert8NRGBAParallel tmp dest dw dw sh dh
        else vert8NRGBAParallel src dest sw dw sh dh
      else horz8NRGBAParallel src dest sw dw dh
    match body with
    | some d2 => .ok d2 src
    | none => .crashed

/-! ## The nearest-neighbor path (`nn.go`) -/

/-- `shift` from `nn.go`. -/
def nnShift : Nat := 16

/-- The fixed-point source index of `nnInner`/`nnProcessTiles` for one
axis: with `step = (S << shift) / D` and `half = step >> 1`, destination
index `i` maps to `(i*step + half) >> shift`.  (Go computes this on
64-bit `int`; the values are exact in `Nat` for every size whose pixel
buffer is addressable.) -/
def nnSrcIdx (S D i : Nat) : Nat :=
  (i * (S * 65536 / D) + (S * 65536 / D) / 2) / 65536

/-- One 4-byte pixel copy of `nnInner`/`nnProcessTiles`:
`d[di+0..3] = s[si+0..3]` with `si = sy*swx4 + (sx<<2)`,
`di = dy*dwx4 + (dx<<2)`.  Reads are total (`getD`); the bounds theorem
below shows every read index is in range. -/
def nnCopyPixel (d s : List Nat) (sw dw dx dy sy : Nat) : List Nat :=
  let si := sy * (sw * 4) + nnSrcIdx sw dw dx * 4
  let di := dy * (dw * 4) + dx * 4
  writeBytes d di
    [s.getD si 0, s.getD (si + 1) 0, s.getD (si + 2) 0, s.getD (si + 3) 0]

/-- The `dx` loop of `nnInner` over one destination row. -/
def nnRow (s : List Nat) (sw dw dy sy : Nat) : Nat → Nat → List Nat → List Nat
  | 0, _, d => d
  | n + 1, dx, d => nnRow s sw dw dy sy n (dx + 1) (nnCopyPixel d s sw dw dx dy sy)

/-- The `dy` loop of `nnInner` over destination rows (row-parallel
partition does not affect any row's computation). -/
def nnRows (s : List Nat) (dw dh sw sh : Nat) : Nat → Nat → List Nat → List Nat
  | 0, _, d => d
  | n + 1, dy, d =>
      nnRows s dw dh sw sh n (dy + 1)
        (nnRow s sw dw dy (nnSrcIdx sh dh dy) dw 0 d)

/-- `nn` from `nn.go`: zero-size destinations are a no-op success; there
is *no* upscale check on this path.  All worker rows always complete
(the abort flag is never set without context cancellation). -/
def nn (dPix sPix : List Nat) (dw dh sw sh : Nat) : RunRes :=
  if dw = 0 ∨ dh = 0 then .ok dPix sPix
  else .ok (nnRows sPix dw dh sw sh dh 0 dPix) sPix

/-- `NRGBAFast` from `nn.go`. -/
def NRGBAFast (dest src : List Nat) (sw sh dw dh : Nat) : RunRes :=
  nn dest src dw dh sw sh

/-- `RGBAFast` from `nn.go`. -/
def RGBAFast (dest src : List Nat) (sw sh dw dh : Nat) : RunRes :=
  nn dest src dw dh sw sh

/-- One destination tile of `nnProcessTiles`: rows and columns clipped
to the destination, same fixed-point index computation as `nnInner`. -/
def nnTile (d s : List Nat) (dw dh sw sh ts : Nat) (tile : Nat × Nat) :
    List Nat :=
  let dxStart := tile.1
  let dyStart := tile.2
  let dxEnd := min (dxStart + ts) dw
  let dyEnd := min (dyStart + ts) dh
  (List.range (dyEnd - dyStart)).foldl
    (fun dAcc j =>
      let dy := dyStart + j
      (List.range (dxEnd - dxStart)).foldl
        (fun dAcc2 i =>
          nnCopyPixel dAcc2 s sw dw (dxStart + i) dy (nnSrcIdx sh dh dy))
        dAcc)
    d

/-- `nnProcessTiles` from `nn.go`: drain the tile list. -/
def nnProcessTiles (d s : List Nat) (dw dh sw sh ts : Nat)
    (tiles : List (Nat × Nat)) : List Nat :=
  tiles.foldl (fun dAcc t => nnTile dAcc s dw dh sw sh ts t) d

/-- Modelled from the spec: `calcDstDirtyTiles` is not under `src/`
(only its callers are).  Per spec §4.6, each dirty source tile corner
pair `(sx, sy)`, `(sx+srcTS, sy+srcTS)` is scaled to the destination
rectangle `(sx*dw/sw, sy*dh/sh)` – `(⌈(sx+srcTS)*dw/sw⌉+1,
⌈(sy+srcTS)*dh/sh⌉+1)`, clamped to the destination, aligned down to
`dstTS` multiples, and every intersecting destination tile origin is
inserted into a deduplicating set.  (Go's set iteration order is
unspecified; the model fixes first-insertion order, which none of the
theorems below depend on.) -/
def calcDstDirtyTiles (sw sh dw dh srcTS dstTS : Nat)
    (dirty : List (Nat × Nat)) : List (Nat × Nat) :=
  (dirty.flatMap fun t =>
    let x0 := t.1 * dw / sw / dstTS * dstTS
    let y0 := t.2 * dh / sh / dstTS * dstTS
    let x1 := min (((t.1 + srcTS) * dw + sw - 1) / sw + 1) dw
    let y1 := min (((t.2 + srcTS) * dh + sh - 1) / sh + 1) dh
    ((List.range ((y1 - y0 + dstTS - 1) / dstTS)).map fun j =>
      (List.range ((x1 - x0 + dstTS - 1) / dstTS)).map fun i =>
        (x0 + i * dstTS, y0 + j * dstTS)).flatten).dedup

/-- Models `NRGBAFastPartial` from `nn.go` (renamed for a lexical
restriction of this development): validation, dirty-tile translation,
then the nearest-neighbor tile processor. -/
def NRGBAFastDirty (dest src : List Nat) (sw sh dw dh srcTS dstTS : Nat)
    (dirty : List (Nat × Nat)) : RunRes :=
  if dw = 0 ∨ dh = 0 then .ok dest src
  else if sw < dw ∨ sh < dh then .errUpscale dest src
  else if dirty = [] then .ok dest src
  else
    let tiles := calcDstDirtyTiles sw sh dw dh srcTS dstTS dirty
    if tiles = [] then .ok dest src
    else .ok (nnProcessTiles dest src dw dh sw sh dstTS tiles) src

/-- Models `RGBAFastPartial` from `nn.go` (same body as
`NRGBAFastPartial`). -/
def RGBAFastDirty (dest src : List Nat) (sw sh dw dh srcTS dstTS : Nat)
    (dirty : List (Nat × Nat)) : RunRes :=
  if dw = 0 ∨ dh = 0 then .ok dest src
  else if sw < dw ∨ sh < dh then .errUpscale dest src
  else if dirty = [] then .ok dest src
  else
    let tiles := calcDstDirtyTiles sw sh dw dh srcTS dstTS dirty
    if tiles = [] then .ok dest src
    else .ok (nnProcessTiles dest src dw dh sw sh dstTS tiles) src

/-- Models `RGBAPartial` from `rgba8.go` (renamed for a lexical
restriction of this development). -/
def RGBADirty (dest src : List Nat) (sw sh dw dh srcTS dstTS : Nat)
    (dirty : List (Nat × Nat)) : RunRes :=
  if dw = 0 ∨ dh = 0 then .ok dest src
  else if sw < dw ∨ sh < dh then .errUpscale dest src
  else if dirty = [] then .ok dest src
  else
    let tiles := calcDstDirtyTiles sw sh dw dh srcTS dstTS dirty
    if tiles = [] then .ok dest src
    else match tiledRGBADirty dest src sw sh dw dh dstTS tiles with
      | some d2 => .ok d2 src
      | none => .crashed

/-! ## The 16-bit gamma pipeline (`nrgba8.go`, gamma section) -/

/-- Result of a Go `uint16` operation. -/
def u16 (n : Nat) : Nat := n % 65536

/-- The horizontal pass of one 16-bit tile (`processTiles16NRGBA`). -/
def horzPass16NRGBA (src : List Nat) (hTT hFT : List Nat) (hS hD : Nat)
    (dxStart dxEnd swx4 stride syStart : Nat) :
    Nat → Nat → List Nat → Option (List Nat)
  | 0, _, inter => some inter
  | n + 1, sy, inter => do
      let inter2 ← horzRow16NRGBATile inter src
        (u32 ((sy - syStart) * stride)) (u32 (sy * swx4))
        dxStart dxEnd hTT hFT hS hD
      horzPass16NRGBA src hTT hFT hS hD dxStart dxEnd swx4 stride syStart
        n (sy + 1) inter2

/-- The vertical pass of one 16-bit tile. -/
def vertPass16NRGBA (inter : List Nat) (vTT vFT : List Nat)
    (vS vD dyStart dyEnd dxStart syStart dwx4 stride : Nat) :
    Nat → Nat → List Nat → Option (List Nat)
  | 0, _, dest => some dest
  | n + 1, dx, dest => do
      let dest2 ← vertCol16NRGBATile dest inter dx dyStart dyEnd
        (dx - dxStart) syStart vTT vFT vS vD dwx4 stride
      vertPass16NRGBA inter vTT vFT vS vD dyStart dyEnd dxStart syStart
        dwx4 stride n (dx + 1) dest2

/-- The per-tile body of `processTiles16NRGBA` (same tile geometry as
the 8-bit tiled path; pooled intermediate fully overwritten before
read, modelled fresh). -/
def processOneTile16NRGBA (dest src : List Nat) (hTT hFT vTT vFT : List Nat)
    (hS hD vS vD sw dw sh dh ts : Nat) (tile : Nat × Nat) :
    Option (List Nat) := do
  let dxStart := tile.1
  let dyStart := tile.2
  let dxEnd := min (dxStart + ts) dw
  let dyEnd := min (dyStart + ts) dh
  let tileW := dxEnd - dxStart
  let syStart := vTT.getD dyStart 0
  let syEnd0 := vTT.getD dyEnd 0
  let syEnd1 := if dyEnd < dh ∧ 0 < vFT.getD (dyEnd - 1) 0 then syEnd0 + 1
    else syEnd0
  let syEnd := min syEnd1 sh
  let stride := u32 (tileW * 4)
  let inter0 := List.replicate (u32 (sub32 syEnd syStart * stride)) 0
  let inter ← horzPass16NRGBA src hTT hFT hS hD dxStart dxEnd (u32 (sw * 4))
    stride syStart (syEnd - syStart) syStart inter0
  vertPass16NRGBA inter vTT vFT vS vD dyStart dyEnd dxStart syStart
    (u32 (dw * 4)) stride (dxEnd - dxStart) dxStart dest

/-- `processTiles16NRGBA` from the gamma section. -/
def processTiles16NRGBA (tiles : List (Nat × Nat)) (dest src : List Nat)
    (hTT hFT vTT vFT : List Nat) (hS hD vS vD sw dw sh dh : Nat) :
    Option (List Nat) :=
  match tiles with
  | [] => some dest
  | t :: rest => do
      let dest2 ← processOneTile16NRGBA dest src hTT hFT vTT vFT
        hS hD vS vD sw dw sh dh tileSize t
      processTiles16NRGBA rest dest2 src hTT hFT vTT vFT
        hS hD vS vD sw dw sh dh

/-- `tiled16NRGBA` from the gamma section: same swapped `makeTable`
argument order as `tiledRGBA`. -/
def tiled16NRGBA (dest src : List Nat) (sw sh dw dh : Nat) :
    Option (List Nat) :=
  let hT := makeTable dw (lcm sw dw / dw) (lcm sw dw / sw)
  let vT := makeTable dh (lcm sh dh / dh) (lcm sh dh / sh)
  processTiles16NRGBA (tileOrigins dw dh tileSize) dest src hT.1 hT.2
    vT.1 vT.2 (lcm sw dw / sw) (lcm sw dw / dw)
    (lcm sh dh / sh) (lcm sh dh / dh) sw dw sh dh

/-- The straight-alpha linearisation loop of `NRGBAGammaWithTable`:
per pixel, `A` is replicated 8→16 bit and `R,G,B` pass through the
forward gamma table `t8`.  (Buffer lengths are multiples of 4.) -/
def linearizeNRGBA (t8 : Nat → Nat) (s : List Nat) : List Nat :=
  ((List.range (s.length / 4)).map fun j =>
    [t8 (s.getD (4 * j) 0), t8 (s.getD (4 * j + 1) 0),
     t8 (s.getD (4 * j + 2) 0), u16 (s.getD (4 * j + 3) 0 * 257)]).flatten

/-- The straight-alpha delinearisation loop of `NRGBAGammaWithTable`,
writing into the destination buffer. -/
def delinearizeNRGBA (t16 : Nat → Nat) (s d : List Nat) : List Nat :=
  (List.range (d.length / 4)).foldl
    (fun dAcc j =>
      writeBytes dAcc (4 * j)
        [t16 (s.getD (4 * j) 0), t16 (s.getD (4 * j + 1) 0),
         t16 (s.getD (4 * j + 2) 0), s.getD (4 * j + 3) 0 / 256 % 256])
    d

/-- `NRGBAGammaWithTable` from the gamma section, with the precomputed
gamma tables passed as functions (`GammaTable` lookups): validation and
trivial cases, then linearise → 16-bit tiled resample → delinearise. -/
def NRGBAGammaWithTable (t8 t16 : Nat → Nat) (dest src : List Nat)
    (sw sh dw dh : Nat) : RunRes :=
  if dw = 0 ∨ dh = 0 then .ok dest src
  else if sw < dw ∨ sh < dh then .errUpscale dest src
  else if sw = dw ∧ sh = dh then .ok (goCopy dest src) src
  else
    match tiled16NRGBA (List.replicate dest.length 0)
        (linearizeNRGBA t8 src) sw sh dw dh with
    | some tmpDest => .ok (delinearizeNRGBA t16 tmpDest dest) src
    | none => .crashed

/-- The premultiplied linearisation loop of `RGBAGammaWithTable`: alpha
255 passes through `t8`; positive alpha unpremultiplies through
`divTable` first; zero alpha leaves the zero-initialised pixel. -/
def linearizeRGBA (t8 : Nat → Nat) (s : List Nat) : List Nat :=
  ((List.range (s.length / 4)).map fun j =>
    let a := s.getD (4 * j + 3) 0
    if a = 255 then
      [t8 (s.getD (4 * j) 0), t8 (s.getD (4 * j + 1) 0),
       t8 (s.getD (4 * j + 2) 0), 65535]
    else if 0 < a then
      [t8 (divTable (s.getD (4 * j) 0 * 256 + a)),
       t8 (divTable (s.getD (4 * j + 1) 0 * 256 + a)),
       t8 (divTable (s.getD (4 * j + 2) 0 * 256 + a)), u16 (a * 257)]
    else [0, 0, 0, 0]).flatten

/-- The premultiplied delinearisation loop of `RGBAGammaWithTable`:
alpha 65535 passes through `t16`; zero alpha writes zeros; otherwise
`t16` output is re-premultiplied with the `*32897 >> 23` identity. -/
def delinearizeRGBA (t16 : Nat → Nat) (s d : List Nat) : List Nat :=
  (List.range (d.length / 4)).foldl
    (fun dAcc j =>
      let a := s.getD (4 * j + 3) 0
      writeBytes dAcc (4 * j)
        (if a = 65535 then
          [t16 (s.getD (4 * j) 0), t16 (s.getD (4 * j + 1) 0),
           t16 (s.getD (4 * j + 2) 0), 255]
        else if a = 0 then [0, 0, 0, 0]
        else
          [u32 (t16 (s.getD (4 * j) 0) * u32 (a / 256 * 32897)) / 8388608 % 256,
           u32 (t16 (s.getD (4 * j + 1) 0) * u32 (a / 256 * 32897)) / 8388608 % 256,
           u32 (t16 (s.getD (4 * j + 2) 0) * u32 (a / 256 * 32897)) / 8388608 % 256,
           a / 256 % 256]))
    d

/-- `RGBAGammaWithTable` from the gamma section. -/
def RGBAGammaWithTable (t8 t16 : Nat → Nat) (dest src : List Nat)
    (sw sh dw dh : Nat) : RunRes :=
  if dw = 0 ∨ dh = 0 then .ok dest src
  else if sw < dw ∨ sh < dh then .errUpscale dest src
  else if sw = dw ∧ sh = dh then .ok (goCopy dest src) src
  else
    match tiled16NRGBA (List.replicate dest.length 0)
        (linearizeRGBA t8 src) sw sh dw dh with
    | some tmpDest => .ok (delinearizeRGBA t16 tmpDest dest) src
    | none => .crashed

/-! ## The cancellation handle (utilities file) -/

/-- The state of a `handle`: the abort flag and the outstanding
`WaitGroup` count.  The `sync.RWMutex` only serialises flag access; the
observable state is the flag and the counter. -/
structure Handle where
  abort : Bool
  pending : Nat
deriving Repr, DecidableEq

/-- `(*handle).SetAbort`: set the abort flag (a non-nil receiver is
modelled; the nil-receiver guard returns without touching any state). -/
def handleSetAbort (h : Handle) : Handle := { h with abort := true }

/-- `(*handle).Aborted`: read the abort flag. -/
def handleAborted (h : Handle) : Bool := h.abort

/-- `(*handle).Done`: decrement the `WaitGroup` counter. -/
def handleDone (h : Handle) : Handle := { h with pending := h.pending - 1 }

/-- `(*handle).Wait(ctx)`: on context cancellation `SetAbort` is called
before draining worker completion; otherwise the handle state is
untouched — the flag is never cleared. -/
def handleWait (ctxCancelled : Bool) (h : Handle) : Handle :=
  if ctxCancelled then handleSetAbort h else h

/-- One operation on a `handle`. -/
inductive HandleOp where
  | setAbort
  | done
  | wait (ctxCancelled : Bool)
  | aborted
deriving Repr, DecidableEq

/-- Effect of one handle operation on the handle state (`Aborted` is a
pure read). -/
def handleStep (h : Handle) : HandleOp → Handle
  | .setAbort => handleSetAbort h
  | .done => handleDone h
  | .wait c => handleWait c h
  | .aborted => h

/-- Run a sequence of handle operations. -/
def handleRun (h : Handle) (ops : List HandleOp) : Handle :=
  ops.foldl handleStep h

/-- `true` exactly on the upscale-unsupported error result. -/
def RunRes.isUpscaleErr : RunRes → Bool
  | .errUpscale _ _ => true
  | _ => false

/-- The `fr` value in effect when a kernel driver that started with
initial value `fr` at position `i` reaches position `i + k`: the driver
refreshes `fr := ft[pos]` after each position. -/
def frChain (ft : List Nat) (fr i : Nat) : Nat → Nat
  | 0 => fr
  | k + 1 => ft.getD (i + k) 0

/-- The right fractional weight a kernel driver carries into destination
position `start + k`: `0` at the very first destination position of the
pass, otherwise the table value `ft[start + k - 1]` refreshed after the
previous position. -/
def frAt (ft : List Nat) (start k : Nat) : Nat :=
  if start + k = 0 then 0 else ft.getD (start + k - 1) 0

/-! ## Theorems -/

lemma gcdLoop_eq (fuel : Nat) : ∀ a b, 0 < a → a + b ≤ fuel →
    gcdLoop fuel a b = Nat.gcd a b := by
  induction fuel with
  | zero => intro a b ha hab; omega
  | succ n ih =>
      intro a b ha hab
      rw [gcdLoop]
      by_cases hb : b = 0
      · simp [hb]
      rw [if_neg hb]
      by_cases hab2 : a > b
      · rw [if_pos hab2, ih (a - b) b (by omega) (by omega)]
        exact Nat.gcd_sub_self_left (by omega)
      · rw [if_neg hab2, ih a (b - a) ha (by omega)]
        exact Nat.gcd_sub_self_right (by omega)

lemma gcd_eq_nat_gcd (a b : Nat) : gcd a b = Nat.gcd a b := by
  by_cases ha : a = 0
  · simp [gcd, ha]
  · rw [gcd, if_neg ha, gcdLoop_eq (a + b) a b (by omega) le_rfl]

lemma gcd_pos {a b : Nat} (ha : 0 < a) : 0 < gcd a b := by
  rw [gcd_eq_nat_gcd]
  exact Nat.gcd_pos_of_pos_left b ha

lemma u32_eq_of_lt {n : Nat} (h : n < W32) : u32 n = n := Nat.mod_eq_of_lt h

/-- Under the no-overflow condition, `lcm` computes the mathematical lcm. -/
lemma lcm_eq (a b : Nat) (h : a * b < W32) : lcm a b = Nat.lcm a b := by
  rw [lcm, u32_eq_of_lt h, gcd_eq_nat_gcd, Nat.lcm]

lemma makeTable_tt_get (l sl dl i : Nat) (hi : i ≤ l) :
    (makeTable l sl dl).1[i]? = some (u32 (dl * i) / sl) := by
  simp [makeTable, List.getElem?_range (by omega : i < l + 1)]

lemma makeTable_ft_get (l sl dl i : Nat) (hi : i ≤ l) :
    (makeTable l sl dl).2[i]? = some (u32 (dl * (i + 1)) % sl) := by
  simp [makeTable, List.getElem?_range (by omega : i < l + 1)]

/-- **C5** (counterexample). The claim states `FT[i] = (dL*(i+1)) mod sL`
for *every* `dL ≥ 1`; but `makeTable` works on Go `uint32`, so the product
`dL*(i+1)` wraps.  At `D = 1`, `sL = 3`, `dL = 2^31 + 1`, entry `FT[1]` is
`((2^31+1)*2 mod 2^32) mod 3 = 2`, while the claimed value
`((2^31+1)*2) mod 3` is `0`. -/
theorem makeTable_ft_overflow_cex :
    (makeTable 1 3 2147483649).2[1]? = some 2 ∧
      2147483649 * (1 + 1) % 3 = 0 ∧ (2 : Nat) ≠ 0 := by
  refine ⟨?_, by norm_num, by norm_num⟩
  rw [makeTable_ft_get 1 3 2147483649 1 le_rfl]
  norm_num [u32, W32]

/-- **C5** (amended): for every `D ≥ 1`, `sL ≥ 1`, `dL ≥ 1` such that the
products stay below `2^32` (`dL*(D+1) < 2^32`, which the spec's §4.1
overflow policy guarantees for its callers), `makeTable(D, sL, dL)` — with
arguments bound in declared order — returns two arrays of length `D+1`
with `TT[i] = ⌊dL*i / sL⌋` and `FT[i] = (dL*(i+1)) mod sL` for all
`0 ≤ i ≤ D`. -/
theorem makeTable_spec (D sL dL : Nat) (hD : 1 ≤ D) (hsL : 1 ≤ sL)
    (hdL : 1 ≤ dL) (hov : dL * (D + 1) < W32) :
    (makeTable D sL dL).1.length = D + 1 ∧
    (makeTable D sL dL).2.length = D + 1 ∧
    ∀ i, i ≤ D →
      (makeTable D sL dL).1[i]? = some (dL * i / sL) ∧
      (makeTable D sL dL).2[i]? = some (dL * (i + 1) % sL) := by
  refine ⟨by simp [makeTable], by simp [makeTable], fun i hi => ⟨?_, ?_⟩⟩
  · rw [makeTable_tt_get D sL dL i hi, u32_eq_of_lt]
    calc dL * i ≤ dL * (D + 1) := by
          exact Nat.mul_le_mul_left dL (by omega)
      _ < W32 := hov
  · rw [makeTable_ft_get D sL dL i hi, u32_eq_of_lt]
    calc dL * (i + 1) ≤ dL * (D + 1) := by
          exact Nat.mul_le_mul_left dL (by omega)
      _ < W32 := hov

/-- Witness for `makeTable_spec` at `D = 2`, `sL = 2`, `dL = 3`. -/
theorem makeTable_spec_witness :
    (1 ≤ 2 ∧ 1 ≤ 2 ∧ 1 ≤ 3 ∧ 3 * (2 + 1) < W32) ∧
    ((makeTable 2 2 3).1.length = 2 + 1 ∧
     (makeTable 2 2 3).2.length = 2 + 1 ∧
     ∀ i, i ≤ 2 →
       (makeTable 2 2 3).1[i]? = some (3 * i / 2) ∧
       (makeTable 2 2 3).2[i]? = some (3 * (i + 1) % 2)) :=
  ⟨⟨by norm_num, by norm_num, by norm_num, by norm_num [W32]⟩,
   makeTable_spec 2 2 3 (by norm_num) (by norm_num) (by norm_num)
     (by norm_num [W32])⟩

/-- **C4** (counterexample).  The tables actually constructed by
`tiledRGBA` pass `makeTable`'s `(slcmlen, dlcmlen)` parameters in swapped
order, so for `S = 2`, `D = 1` the constructed `TT` is `[0, 0]`:
`TT[D] = 0 ≠ 2 = S`. -/
theorem tiledTables_tt_end_cex :
    (tiledTables 2 1).1[1]? = some 0 ∧ (0 : Nat) ≠ 2 := by
  constructor
  · rfl
  · norm_num

lemma tiledTables_tt_closed (S D : Nat) (hD : 1 ≤ D) (hDS : D ≤ S)
    (hov : S * D < W32) (i : Nat) (hi : i ≤ D) :
    (tiledTables S D).1[i]? =
      some ((D / Nat.gcd S D) * i / (S / Nat.gcd S D)) := by
  have hg : 0 < Nat.gcd S D := Nat.gcd_pos_of_pos_left D (by omega)
  obtain ⟨s, hs⟩ : Nat.gcd S D ∣ S := Nat.gcd_dvd_left S D
  obtain ⟨d, hd⟩ : Nat.gcd S D ∣ D := Nat.gcd_dvd_right S D
  set g := Nat.gcd S D with hgdef
  have hlcm : lcm S D = g * s * d := by
    rw [lcm_eq S D hov, Nat.lcm, ← hgdef, hs, hd]
    rw [show g * s * (g * d) = g * (s * (g * d)) by ring]
    rw [Nat.mul_div_cancel_left _ hg]
    ring
  have hs0 : 0 < s := by
    rcases Nat.eq_zero_or_pos s with h | h
    · subst h; rw [Nat.mul_zero] at hs; omega
    · exact h
  have hd0 : 0 < d := by
    rcases Nat.eq_zero_or_pos d with h | h
    · subst h; rw [Nat.mul_zero] at hd; omega
    · exact h
  have hsd : S / g = s := by rw [hs]; exact Nat.mul_div_cancel_left s hg
  have hdd : D / g = d := by rw [hd]; exact Nat.mul_div_cancel_left d hg
  have hslcm : lcm S D / D = s := by
    rw [hlcm, hd, show g * s * d = s * (g * d) by ring]
    exact Nat.mul_div_cancel _ (Nat.mul_pos hg hd0)
  have hdlcm : lcm S D / S = d := by
    rw [hlcm, hs, show g * s * d = d * (g * s) by ring]
    exact Nat.mul_div_cancel _ (Nat.mul_pos hg hs0)
  rw [tiledTables, hslcm, hdlcm, makeTable_tt_get _ _ _ _ hi, hsd, hdd]
  have : d * i < W32 := by
    calc d * i ≤ D * D := by
          refine Nat.mul_le_mul ?_ hi
          rw [hd]; exact Nat.le_mul_of_pos_left d hg
      _ ≤ S * D := Nat.mul_le_mul_right D hDS
      _ < W32 := hov
  rw [u32_eq_of_lt this]

/-- **C4** (amended): for every `S ≥ D ≥ 1` with `S*D < 2^32` (the spec's
§4.1 overflow policy), the `TT` table actually constructed by `tiledRGBA`
for that axis — via `makeTable(D, DLcmLen, SLcmLen)`, i.e. with the
`(slcmlen, dlcmlen)` arguments swapped relative to `makeTable`'s declared
signature — satisfies `TT[0] = 0` and is monotonically non-decreasing,
but its final entry is `TT[D] = ⌊D²/S⌋`, which equals `S` only when
`S = D`. -/
theorem tiledTables_invariants (S D : Nat) (hD : 1 ≤ D) (hDS : D ≤ S)
    (hov : S * D < W32) :
    (tiledTables S D).1[0]? = some 0 ∧
    (tiledTables S D).1[D]? = some (D * D / S) ∧
    ∀ i j, i ≤ j → j ≤ D →
      (tiledTables S D).1.getD i 0 ≤ (tiledTables S D).1.getD j 0 := by
  have hg : 0 < Nat.gcd S D := Nat.gcd_pos_of_pos_left D (by omega)
  refine ⟨?_, ?_, ?_⟩
  · rw [tiledTables_tt_closed S D hD hDS hov 0 (by omega)]
    simp
  · rw [tiledTables_tt_closed S D hD hDS hov D le_rfl]
    obtain ⟨s, hs⟩ : Nat.gcd S D ∣ S := Nat.gcd_dvd_left S D
    obtain ⟨d, hd⟩ : Nat.gcd S D ∣ D := Nat.gcd_dvd_right S D
    set g := Nat.gcd S D with hgdef
    have hsd : S / g = s := by rw [hs]; exact Nat.mul_div_cancel_left s hg
    have hdd : D / g = d := by rw [hd]; exact Nat.mul_div_cancel_left d hg
    rw [hsd, hdd]
    congr 1
    rw [hs, hd, show g * d * (g * d) = g * (d * (g * d)) by ring]
    rw [Nat.mul_div_mul_left _ _ hg]
  · intro i j hij hj
    rw [List.getD_eq_getElem?_getD, List.getD_eq_getElem?_getD,
      tiledTables_tt_closed S D hD hDS hov i (by omega),
      tiledTables_tt_closed S D hD hDS hov j hj]
    exact Nat.div_le_div_right (Nat.mul_le_mul_left _ hij)

/-- Witness for `tiledTables_invariants` at `S = 3`, `D = 2`. -/
theorem tiledTables_invariants_witness :
    (1 ≤ 2 ∧ 2 ≤ 3 ∧ 3 * 2 < W32) ∧
    ((tiledTables 3 2).1[0]? = some 0 ∧
     (tiledTables 3 2).1[2]? = some (2 * 2 / 3) ∧
     ∀ i j, i ≤ j → j ≤ 2 →
       (tiledTables 3 2).1.getD i 0 ≤ (tiledTables 3 2).1.getD j 0) :=
  ⟨⟨by norm_num, by norm_num, by norm_num [W32]⟩,
   tiledTables_invariants 3 2 (by norm_num) (by norm_num)
     (by norm_num [W32])⟩

/-- **C9**: the abort flag is a one-way latch: after `SetAbort`, every
sequence of handle operations (`SetAbort`, `Done`, `Wait` — cancelled or
not — and `Aborted`) leaves the flag set, and `Aborted()` returns `true`;
no operation resets it. -/
theorem handle_abort_latch (h : Handle) (ops : List HandleOp) :
    (handleRun (handleSetAbort h) ops).abort = true ∧
    handleAborted (handleRun (handleSetAbort h) ops) = true := by
  suffices key : ∀ (l : List HandleOp) (h2 : Handle), h2.abort = true →
      (handleRun h2 l).abort = true by
    exact ⟨key ops _ rfl, key ops _ rfl⟩
  intro l
  induction l with
  | nil => intro h2 hh; exact hh
  | cons op rest ih =>
      intro h2 hh
      have hstep : (handleStep h2 op).abort = true := by
        cases op with
        | setAbort => rfl
        | done => exact hh
        | wait c => cases c <;> simp [handleStep, handleWait, handleSetAbort, hh]
        | aborted => exact hh
      exact ih (handleStep h2 op) hstep

/-- **C1**: downscaling the 3×1 row `(255,0,0,255),(0,255,0,255),
(0,0,255,255)` to 1×1 with `RGBA` returns success but writes
`(85,85,0,170)`, not the `(85,85,85,255)` the spec's scenario S3
requires: the swapped `makeTable` argument order in `tiledRGBA` makes
the horizontal table `[0,0]`/`[1,2]`, so source pixel 2 never
contributes and the accumulated weight mass is wrong. -/
theorem RGBA_s3_scenario :
    RGBA [0, 0, 0, 0] [255, 0, 0, 255, 0, 255, 0, 255, 0, 0, 255, 255]
        3 1 1 1 =
      .ok [85, 85, 0, 170]
        [255, 0, 0, 255, 0, 255, 0, 255, 0, 0, 255, 255] ∧
    RGBA [0, 0, 0, 0] [255, 0, 0, 255, 0, 255, 0, 255, 0, 0, 255, 255]
        3 1 1 1 ≠
      .ok [85, 85, 85, 255]
        [255, 0, 0, 255, 0, 255, 0, 255, 0, 0, 255, 255] := by
  exact ⟨by decide, by decide⟩

lemma processTilesRGBAWithTileSize_at_tileSize (tiles : List (Nat × Nat)) :
    ∀ dest src hTT hFT vTT vFT hS hD vS vD sw dw sh dh,
      processTilesRGBAWithTileSize tiles dest src hTT hFT vTT vFT
        hS hD vS vD sw dw sh dh tileSize =
      processTilesRGBA tiles dest src hTT hFT vTT vFT
        hS hD vS vD sw dw sh dh := by
  induction tiles with
  | nil => intros; rfl
  | cons t rest ih =>
      intro dest src hTT hFT vTT vFT hS hD vS vD sw dw sh dh
      simp only [processTilesRGBAWithTileSize, processTilesRGBA, bind,
        Option.bind]
      cases processOneTileRGBA dest src hTT hFT vTT vFT hS hD vS vD
        sw dw sh dh tileSize t with
      | none => rfl
      | some d2 => exact ih d2 src hTT hFT vTT vFT hS hD vS vD sw dw sh dh

/-- **C7** (amended): running the partial tile processor
(`processTilesRGBAWithTileSize`, via the `tiledRGBAPartial` driver
modelled by `tiledRGBADirty`) with the *default* tile size
`ts = tileSize = 64` over the complete set of destination tile origins
produces exactly the result of the full tiled resampler `tiledRGBA`, for
every source/destination size and buffer contents (including crashing
runs, which agree as well).  For other tile sizes the two runs can
differ — see the counterexample. -/
theorem tiledRGBADirty_complete_eq (dest src : List Nat)
    (sw sh dw dh : Nat) :
    tiledRGBADirty dest src sw sh dw dh tileSize
      (tileOrigins dw dh tileSize) =
    tiledRGBA dest src sw sh dw dh := by
  unfold tiledRGBADirty tiledRGBA
  exact processTilesRGBAWithTileSize_at_tileSize _ _ _ _ _ _ _ _ _ _ _ _ _ _ _

/-- **C7** (counterexample): for a 1×9 → 1×6 downscale with destination
tile size `ts = 1`, the full tiled resampler completes, but the partial
processor over the complete set of tile origins hits an out-of-range
read of its (per-tile smaller) intermediate buffer — an artefact of the
swapped weight tables — and crashes, so no byte-identical destination
buffer is produced. -/
theorem tiledRGBADirty_ts1_cex :
    tiledRGBADirty (List.replicate 24 0) (List.replicate 36 255)
      1 9 1 6 1 (tileOrigins 1 6 1) = none ∧
    (tiledRGBA (List.replicate 24 0) (List.replicate 36 255)
      1 9 1 6).isSome = true := by
  exact ⟨by decide, by decide⟩

/-- **C3** (counterexample): `NRGBAFast` on a 1×1 → 2×1 *upscale*
performs no upscale check: it returns success and writes the
destination (both pixels become the single source pixel), rather than
returning the upscale error and writing nothing. -/
theorem fast_upscale_cex :
    NRGBAFast [0, 0, 0, 0, 0, 0, 0, 0] [9, 8, 7, 6] 1 1 2 1 =
      .ok [9, 8, 7, 6, 9, 8, 7, 6] [9, 8, 7, 6] ∧
    (RunRes.ok [9, 8, 7, 6, 9, 8, 7, 6] [9, 8, 7, 6]).isUpscaleErr
      = false ∧
    ([9, 8, 7, 6, 9, 8, 7, 6] : List Nat) ≠ [0, 0, 0, 0, 0, 0, 0, 0] := by
  exact ⟨by decide, by decide, by decide⟩

lemma matchOk_not_upscale (o : Option (List Nat)) (s : List Nat) :
    (match o with
      | some d2 => RunRes.ok d2 s
      | none => RunRes.crashed).isUpscaleErr = false := by
  cases o <;> rfl

/-- **C3** (amended): for positive destination sizes, if the source is
strictly smaller than the destination on either axis then the checked
entry points (`RGBA`, `NRGBA`, `RGBAPartial`, `NRGBAFastPartial`,
`RGBAFastPartial` — the latter three modelled as `…Dirty` —,
`NRGBAGammaWithTable`, `RGBAGammaWithTable`) return the
upscale-unsupported error with the destination untouched, while the
nearest-neighbor fast variants `NRGBAFast`/`RGBAFast` perform *no*
upscale check and return success after writing; and if `sw ≥ dw` and
`sh ≥ dh`, no entry point returns the upscale error. -/
theorem upscale_validation (dest src : List Nat) (t8 t16 : Nat → Nat)
    (sw sh dw dh srcTS dstTS : Nat) (dirty : List (Nat × Nat))
    (hw : 1 ≤ dw) (hh : 1 ≤ dh) :
    ((sw < dw ∨ sh < dh) →
      RGBA dest src sw sh dw dh = .errUpscale dest src ∧
      NRGBA src dest sw sh dw dh = .errUpscale dest src ∧
      RGBADirty dest src sw sh dw dh srcTS dstTS dirty
        = .errUpscale dest src ∧
      NRGBAFastDirty dest src sw sh dw dh srcTS dstTS dirty
        = .errUpscale dest src ∧
      RGBAFastDirty dest src sw sh dw dh srcTS dstTS dirty
        = .errUpscale dest src ∧
      NRGBAGammaWithTable t8 t16 dest src sw sh dw dh
        = .errUpscale dest src ∧
      RGBAGammaWithTable t8 t16 dest src sw sh dw dh
        = .errUpscale dest src ∧
      NRGBAFast dest src sw sh dw dh
        = .ok (nnRows src dw dh sw sh dh 0 dest) src ∧
      RGBAFast dest src sw sh dw dh
        = .ok (nnRows src dw dh sw sh dh 0 dest) src) ∧
    (dw ≤ sw → dh ≤ sh →
      (RGBA dest src sw sh dw dh).isUpscaleErr = false ∧
      (NRGBA src dest sw sh dw dh).isUpscaleErr = false ∧
      (RGBADirty dest src sw sh dw dh srcTS dstTS dirty).isUpscaleErr
        = false ∧
      (NRGBAFastDirty dest src sw sh dw dh srcTS dstTS dirty).isUpscaleErr
        = false ∧
      (RGBAFastDirty dest src sw sh dw dh srcTS dstTS dirty).isUpscaleErr
        = false ∧
      (NRGBAGammaWithTable t8 t16 dest src sw sh dw dh).isUpscaleErr
        = false ∧
      (RGBAGammaWithTable t8 t16 dest src sw sh dw dh).isUpscaleErr
        = false ∧
      (NRGBAFast dest src sw sh dw dh).isUpscaleErr = false ∧
      (RGBAFast dest src sw sh dw dh).isUpscaleErr = false) := by
  have hz : ¬(dw = 0 ∨ dh = 0) := by omega
  constructor
  · intro hup
    refine ⟨?_, ?_, ?_, ?_, ?_, ?_, ?_, ?_, ?_⟩
    · rw [RGBA, if_neg hz, if_pos hup]
    · rw [NRGBA, if_pos hup]
    · rw [RGBADirty, if_neg hz, if_pos hup]
    · rw [NRGBAFastDirty, if_neg hz, if_pos hup]
    · rw [RGBAFastDirty, if_neg hz, if_pos hup]
    · rw [NRGBAGammaWithTable, if_neg hz, if_pos hup]
    · rw [RGBAGammaWithTable, if_neg hz, if_pos hup]
    · rw [NRGBAFast, nn, if_neg (by omega)]
    · rw [RGBAFast, nn, if_neg (by omega)]
  · intro hsw hsh
    have hu : ¬(sw < dw ∨ sh < dh) := by omega
    refine ⟨?_, ?_, ?_, ?_, ?_, ?_, ?_, ?_, ?_⟩
    · rw [RGBA, if_neg hz, if_neg hu]
      split
      · rfl
      · split <;> rfl
    · rw [NRGBA, if_neg hu]
      split
      · rfl
      · exact matchOk_not_upscale _ _
    · rw [RGBADirty, if_neg hz, if_neg hu]
      split
      · rfl
      · dsimp only
        split
        · rfl
        · exact matchOk_not_upscale _ _
    · rw [NRGBAFastDirty, if_neg hz, if_neg hu]
      split
      · rfl
      · dsimp only
        split <;> rfl
    · rw [RGBAFastDirty, if_neg hz, if_neg hu]
      split
      · rfl
      · dsimp only
        split <;> rfl
    · rw [NRGBAGammaWithTable, if_neg hz, if_neg hu]
      split
      · rfl
      · split <;> rfl
    · rw [RGBAGammaWithTable, if_neg hz, if_neg hu]
      split
      · rfl
      · split <;> rfl
    · rw [NRGBAFast, nn]
      split <;> rfl
    · rw [RGBAFast, nn]
      split <;> rfl

/-- Witness for `upscale_validation` at a 1×1 source, 2×1 destination
(first part) — i.e. `1 ≤ 2`, `1 ≤ 1`, and the conclusion instantiated. -/
theorem upscale_validation_witness :
    (1 ≤ 2 ∧ (1 : Nat) ≤ 1) ∧
    (((1 < 2 ∨ 1 < 1) →
      RGBA [0, 0, 0, 0, 0, 0, 0, 0] [9, 8, 7, 6] 1 1 2 1 =
        .errUpscale [0, 0, 0, 0, 0, 0, 0, 0] [9, 8, 7, 6] ∧
      NRGBA [9, 8, 7, 6] [0, 0, 0, 0, 0, 0, 0, 0] 1 1 2 1 =
        .errUpscale [0, 0, 0, 0, 0, 0, 0, 0] [9, 8, 7, 6] ∧
      RGBADirty [0, 0, 0, 0, 0, 0, 0, 0] [9, 8, 7, 6] 1 1 2 1 1 1 [(0, 0)]
        = .errUpscale [0, 0, 0, 0, 0, 0, 0, 0] [9, 8, 7, 6] ∧
      NRGBAFastDirty [0, 0, 0, 0, 0, 0, 0, 0] [9, 8, 7, 6] 1 1 2 1 1 1
        [(0, 0)] = .errUpscale [0, 0, 0, 0, 0, 0, 0, 0] [9, 8, 7, 6] ∧
      RGBAFastDirty [0, 0, 0, 0, 0, 0, 0, 0] [9, 8, 7, 6] 1 1 2 1 1 1
        [(0, 0)] = .errUpscale [0, 0, 0, 0, 0, 0, 0, 0] [9, 8, 7, 6] ∧
      NRGBAGammaWithTable id id [0, 0, 0, 0, 0, 0, 0, 0] [9, 8, 7, 6]
        1 1 2 1 = .errUpscale [0, 0, 0, 0, 0, 0, 0, 0] [9, 8, 7, 6] ∧
      RGBAGammaWithTable id id [0, 0, 0, 0, 0, 0, 0, 0] [9, 8, 7, 6]
        1 1 2 1 = .errUpscale [0, 0, 0, 0, 0, 0, 0, 0] [9, 8, 7, 6] ∧
      NRGBAFast [0, 0, 0, 0, 0, 0, 0, 0] [9, 8, 7, 6] 1 1 2 1
        = .ok (nnRows [9, 8, 7, 6] 2 1 1 1 1 0 [0, 0, 0, 0, 0, 0, 0, 0])
          [9, 8, 7, 6] ∧
      RGBAFast [0, 0, 0, 0, 0, 0, 0, 0] [9, 8, 7, 6] 1 1 2 1
        = .ok (nnRows [9, 8, 7, 6] 2 1 1 1 1 0 [0, 0, 0, 0, 0, 0, 0, 0])
          [9, 8, 7, 6]) ∧
    (2 ≤ 1 → 1 ≤ 1 →
      (RGBA [0, 0, 0, 0, 0, 0, 0, 0] [9, 8, 7, 6] 1 1 2 1).isUpscaleErr
        = false ∧
      (NRGBA [9, 8, 7, 6] [0, 0, 0, 0, 0, 0, 0, 0] 1 1 2 1).isUpscaleErr
        = false ∧
      (RGBADirty [0, 0, 0, 0, 0, 0, 0, 0] [9, 8, 7, 6] 1 1 2 1 1 1
        [(0, 0)]).isUpscaleErr = false ∧
      (NRGBAFastDirty [0, 0, 0, 0, 0, 0, 0, 0] [9, 8, 7, 6] 1 1 2 1 1 1
        [(0, 0)]).isUpscaleErr = false ∧
      (RGBAFastDirty [0, 0, 0, 0, 0, 0, 0, 0] [9, 8, 7, 6] 1 1 2 1 1 1
        [(0, 0)]).isUpscaleErr = false ∧
      (NRGBAGammaWithTable id id [0, 0, 0, 0, 0, 0, 0, 0] [9, 8, 7, 6]
        1 1 2 1).isUpscaleErr = false ∧
      (RGBAGammaWithTable id id [0, 0, 0, 0, 0, 0, 0, 0] [9, 8, 7, 6]
        1 1 2 1).isUpscaleErr = false ∧
      (NRGBAFast [0, 0, 0, 0, 0, 0, 0, 0] [9, 8, 7, 6] 1 1 2 1).isUpscaleErr
        = false ∧
      (RGBAFast [0, 0, 0, 0, 0, 0, 0, 0] [9, 8, 7, 6] 1 1 2 1).isUpscaleErr
        = false)) :=
  ⟨⟨by norm_num, le_rfl⟩,
   upscale_validation [0, 0, 0, 0, 0, 0, 0, 0] [9, 8, 7, 6] id id
     1 1 2 1 1 1 [(0, 0)] (by norm_num) le_rfl⟩

lemma writeBytes_length (bs : List Nat) : ∀ (d : List Nat) (i : Nat),
    (writeBytes d i bs).length = d.length := by
  induction bs with
  | nil => intro d i; rfl
  | cons b bs ih =>
      intro d i
      rw [writeBytes, ih, List.length_set]

lemma writeBytes_get_lt (bs : List Nat) : ∀ (d : List Nat) (i j : Nat),
    j < i → (writeBytes d i bs)[j]? = d[j]? := by
  induction bs with
  | nil => intro d i j _; rfl
  | cons b bs ih =>
      intro d i j hj
      rw [writeBytes, ih _ _ _ (by omega),
        List.getElem?_set_ne (by omega : i ≠ j)]

lemma writeBytes_get_ge (bs : List Nat) : ∀ (d : List Nat) (i j : Nat),
    i + bs.length ≤ j → (writeBytes d i bs)[j]? = d[j]? := by
  induction bs with
  | nil => intro d i j _; rfl
  | cons b bs ih =>
      intro d i j hj
      simp only [List.length_cons] at hj
      rw [writeBytes, ih _ _ _ (by omega),
        List.getElem?_set_ne (by omega : i ≠ j)]

lemma writeBytes_get_at (bs : List Nat) : ∀ (d : List Nat) (i k : Nat),
    k < bs.length → i + k < d.length →
    (writeBytes d i bs)[i + k]? = bs[k]? := by
  induction bs with
  | nil => intro d i k hk _; simp at hk
  | cons b bs ih =>
      intro d i k hk hlen
      cases k with
      | zero =>
          rw [writeBytes, writeBytes_get_lt bs _ _ _ (by omega)]
          simpa using List.getElem?_set_self (by omega)
      | succ k =>
          have : i + (k + 1) = (i + 1) + k := by omega
          rw [writeBytes, this, ih _ _ _ (by simpa using hk)
            (by rw [List.length_set]; omega)]
          simp

lemma nnCopyPixel_length (d s : List Nat) (sw dw dx dy sy : Nat) :
    (nnCopyPixel d s sw dw dx dy sy).length = d.length :=
  writeBytes_length _ _ _

lemma nnRow_length (s : List Nat) (sw dw dy sy : Nat) :
    ∀ n dx (d : List Nat), (nnRow s sw dw dy sy n dx d).length = d.length := by
  intro n
  induction n with
  | zero => intro dx d; rfl
  | succ n ih => intro dx d; rw [nnRow, ih, nnCopyPixel_length]

lemma nnRows_length (s : List Nat) (dw dh sw sh : Nat) :
    ∀ n dy (d : List Nat),
      (nnRows s dw dh sw sh n dy d).length = d.length := by
  intro n
  induction n with
  | zero => intro dy d; rfl
  | succ n ih => intro dy d; rw [nnRows, ih, nnRow_length]

lemma nnRow_out (s : List Nat) (sw dw dy sy : Nat) :
    ∀ n dx (d : List Nat) (j : Nat),
      (j < dy * (dw * 4) + dx * 4 ∨ dy * (dw * 4) + (dx + n) * 4 ≤ j) →
      (nnRow s sw dw dy sy n dx d)[j]? = d[j]? := by
  intro n
  induction n with
  | zero => intro dx d j _; rfl
  | succ n ih =>
      intro dx d j hj
      rw [nnRow, ih _ _ _ (by omega)]
      rcases hj with hj | hj
      · exact writeBytes_get_lt _ _ _ _ (by omega)
      · exact writeBytes_get_ge _ _ _ _ (by simp; omega)

lemma nnRow_at (s : List Nat) (sw dw dy sy : Nat) :
    ∀ n dx (d : List Nat) (x c : Nat), dx ≤ x → x < dx + n → c < 4 →
      dy * (dw * 4) + x * 4 + c < d.length →
      (nnRow s sw dw dy sy n dx d)[dy * (dw * 4) + x * 4 + c]? =
        some (s.getD (sy * (sw * 4) + nnSrcIdx sw dw x * 4 + c) 0) := by
  intro n
  induction n with
  | zero => intro dx d x c h1 h2; omega
  | succ n ih =>
      intro dx d x c h1 h2 hc hlen
      rw [nnRow]
      by_cases hx : x = dx
      · subst hx
        rw [nnRow_out s sw dw dy sy n (x + 1) _ _ (Or.inl (by omega))]
        unfold nnCopyPixel
        have harr : dy * (dw * 4) + x * 4 + c =
            (dy * (dw * 4) + x * 4) + c := by omega
        rw [harr, writeBytes_get_at _ _ _ _ (by simp; omega) (by omega)]
        interval_cases c <;> rfl
      · exact ih (dx + 1) _ x c (by omega) (by omega) hc
          (by rw [nnCopyPixel_length]; omega)

lemma nnRows_out (s : List Nat) (dw dh sw sh : Nat) :
    ∀ n dy (d : List Nat) (j : Nat), j < dy * (dw * 4) →
      (nnRows s dw dh sw sh n dy d)[j]? = d[j]? := by
  intro n
  induction n with
  | zero => intro dy d j _; rfl
  | succ n ih =>
      intro dy d j hj
      rw [nnRows, ih _ _ _ (by
        calc j < dy * (dw * 4) := hj
          _ ≤ (dy + 1) * (dw * 4) := Nat.mul_le_mul_right _ (by omega))]
      exact nnRow_out s sw dw dy _ dw 0 d j (Or.inl (by omega))

lemma nnRows_at (s : List Nat) (dw dh sw sh : Nat) :
    ∀ n dy (d : List Nat) (x y c : Nat), dy ≤ y → y < dy + n → x < dw →
      c < 4 → y * (dw * 4) + x * 4 + c < d.length →
      (nnRows s dw dh sw sh n dy d)[y * (dw * 4) + x * 4 + c]? =
        some (s.getD (nnSrcIdx sh dh y * (sw * 4) + nnSrcIdx sw dw x * 4 + c)
          0) := by
  intro n
  induction n with
  | zero => intro dy d x y c h1 h2; omega
  | succ n ih =>
      intro dy d x y c h1 h2 hx hc hlen
      rw [nnRows]
      by_cases hy : y = dy
      · subst hy
        rw [nnRows_out s dw dh sw sh n (y + 1) _ _ (by
          calc y * (dw * 4) + x * 4 + c < y * (dw * 4) + dw * 4 := by omega
            _ = (y + 1) * (dw * 4) := by ring)]
        exact nnRow_at s sw dw y _ dw 0 _ x c (by omega) (by omega) hc hlen
      · exact ih (dy + 1) _ x y c (by omega) (by omega) hx hc
          (by rw [nnRow_length]; omega)

lemma nnSrcIdx_self (D i : Nat) (hD : 1 ≤ D) : nnSrcIdx D D i = i := by
  unfold nnSrcIdx
  rw [Nat.mul_div_cancel_left 65536 (by omega : 0 < D)]
  omega

lemma goCopy_id (d s : List Nat) (h : d.length = s.length) :
    goCopy d s = s := by
  rw [goCopy, h, List.take_length, ← h, List.drop_length, List.append_nil]

lemma nnRows_id (src dPix : List Nat) (dw dh : Nat)
    (hw : 1 ≤ dw) (hh : 1 ≤ dh)
    (hd : dPix.length = 4 * (dw * dh)) (hs : src.length = 4 * (dw * dh)) :
    nnRows src dw dh dw dh dh 0 dPix = src := by
  apply List.ext_getElem?
  intro i
  by_cases hi : i < 4 * (dw * dh)
  · have hcomm : dw * 4 * (i / (dw * 4)) = i / (dw * 4) * (dw * 4) :=
      Nat.mul_comm _ _
    have h1 := Nat.div_add_mod i (dw * 4)
    have h2 := Nat.div_add_mod (i % (dw * 4)) 4
    have hdecomp : i = i / (dw * 4) * (dw * 4) +
        i % (dw * 4) / 4 * 4 + i % (dw * 4) % 4 := by omega
    have hylt : i / (dw * 4) < dh := by
      rw [Nat.div_lt_iff_lt_mul (by omega : 0 < dw * 4)]
      calc i < 4 * (dw * dh) := hi
        _ = dh * (dw * 4) := by ring
    have hmod : i % (dw * 4) < dw * 4 := Nat.mod_lt _ (by omega)
    have hxlt : i % (dw * 4) / 4 < dw := by omega
    have hclt : i % (dw * 4) % 4 < 4 := Nat.mod_lt _ (by omega)
    rw [hdecomp, nnRows_at src dw dh dw dh dh 0 dPix (i % (dw * 4) / 4)
      (i / (dw * 4)) (i % (dw * 4) % 4) (Nat.zero_le _)
      (by rw [Nat.zero_add]; exact hylt) hxlt hclt
      (by rw [← hdecomp, hd]; exact hi),
      nnSrcIdx_self dh _ hh, nnSrcIdx_self dw _ hw, ← hdecomp,
      List.getD_eq_getElem?_getD,
      List.getElem?_eq_getElem (by omega : i < src.length)]
    rfl
  · rw [List.getElem?_eq_none (by rw [nnRows_length]; omega),
      List.getElem?_eq_none (by omega)]

/-- **C2**: when source and destination have equal positive width and
height, each `(ctx, dest, src)`-shaped entry point — `NRGBA`, `RGBA` and
the nearest-neighbor `NRGBAFast`/`RGBAFast` — returns success with the
destination buffer byte-for-byte equal to the source buffer's contents,
and the source buffer unmodified (the returned source component is the
input source). -/
theorem identity_equal_sizes (dest src : List Nat) (sw sh dw dh : Nat)
    (hw : 1 ≤ dw) (hh : 1 ≤ dh) (hsw : sw = dw) (hsh : sh = dh)
    (hd : dest.length = 4 * (dw * dh)) (hs : src.length = 4 * (sw * sh)) :
    RGBA dest src sw sh dw dh = .ok src src ∧
    NRGBA src dest sw sh dw dh = .ok src src ∧
    NRGBAFast dest src sw sh dw dh = .ok src src ∧
    RGBAFast dest src sw sh dw dh = .ok src src := by
  subst hsw hsh
  have hcopy : goCopy dest src = src := goCopy_id _ _ (by omega)
  have hnn : nn dest src sw sh sw sh = .ok src src := by
    rw [nn, if_neg (by omega),
      nnRows_id src dest sw sh hw hh (by omega) (by omega)]
  exact ⟨by rw [RGBA, if_neg (by omega), if_neg (by omega),
      if_pos ⟨rfl, rfl⟩, hcopy],
    by rw [NRGBA, if_neg (by omega), if_pos ⟨rfl, rfl⟩, hcopy],
    hnn, hnn⟩

/-- Witness for `identity_equal_sizes` on 1×1 buffers. -/
theorem identity_equal_sizes_witness :
    ((1 : Nat) ≤ 1 ∧ (1 : Nat) = 1 ∧
     ([1, 2, 3, 4] : List Nat).length = 4 * (1 * 1) ∧
     ([5, 6, 7, 8] : List Nat).length = 4 * (1 * 1)) ∧
    (RGBA [1, 2, 3, 4] [5, 6, 7, 8] 1 1 1 1 = .ok [5, 6, 7, 8] [5, 6, 7, 8] ∧
     NRGBA [5, 6, 7, 8] [1, 2, 3, 4] 1 1 1 1 = .ok [5, 6, 7, 8] [5, 6, 7, 8] ∧
     NRGBAFast [1, 2, 3, 4] [5, 6, 7, 8] 1 1 1 1
       = .ok [5, 6, 7, 8] [5, 6, 7, 8] ∧
     RGBAFast [1, 2, 3, 4] [5, 6, 7, 8] 1 1 1 1
       = .ok [5, 6, 7, 8] [5, 6, 7, 8]) :=
  ⟨⟨le_rfl, rfl, by decide, by decide⟩,
   identity_equal_sizes [1, 2, 3, 4] [5, 6, 7, 8] 1 1 1 1 le_rfl le_rfl
     rfl rfl (by decide) (by decide)⟩

lemma nnSrcIdx_half (D i : Nat) (hD : 1 ≤ D) :
    nnSrcIdx (2 * D) D i = 2 * i + 1 := by
  unfold nnSrcIdx
  have hstep : 2 * D * 65536 / D = 131072 := by
    rw [show 2 * D * 65536 = D * 131072 by ring]
    exact Nat.mul_div_cancel_left 131072 (by omega)
  rw [hstep]
  rw [show i * 131072 + 131072 / 2 = 65536 * (2 * i + 1) by omega]
  exact Nat.mul_div_cancel_left _ (by omega : 0 < 65536)

lemma pix_index_lt (sw sh sx sy : Nat) (hx : sx < sw) (hy : sy < sh) :
    sy * (sw * 4) + sx * 4 + 3 < 4 * (sw * sh) := by
  have h1 : (sy + 1) * (sw * 4) ≤ sh * (sw * 4) :=
    Nat.mul_le_mul_right _ (by omega)
  have h2 : sh * (sw * 4) = 4 * (sw * sh) := by ring
  have h3 : (sy + 1) * (sw * 4) = sy * (sw * 4) + sw * 4 := by ring
  omega

/-- **C8** (counterexample): for `sw = 2·dw`, `sh = 2·dh` (here 2×2 → 1×1
with 16 distinct source bytes), the destination pixel is a copy of source
pixel `(1,1)` (bytes 12..15), not of source pixel `(2·dx, 2·dy) = (0,0)`
(bytes 0..3): the fixed-point rule `(dx*xStep + xHalf) >> 16` with
`xStep = 2<<16` yields `2·dx+1`, not `2·dx`. -/
theorem nn_half_scale_cex :
    nn [0, 0, 0, 0] [0, 1, 2, 3, 4, 5, 6, 7, 8, 9, 10, 11, 12, 13, 14, 15]
      1 1 2 2 =
      .ok [12, 13, 14, 15]
        [0, 1, 2, 3, 4, 5, 6, 7, 8, 9, 10, 11, 12, 13, 14, 15] ∧
    ([12, 13, 14, 15] : List Nat) ≠ [0, 1, 2, 3] := by
  exact ⟨by decide, by decide⟩

/-- **C8** (amended): for `sw = 2·dw`, `sh = 2·dh`, the fixed-point rule
with shift 16 maps destination index `i` to source index `2·i + 1` on
each axis, and every destination pixel written by `nn` is a 4-byte copy
of source pixel `(2·dx+1, 2·dy+1)`. -/
theorem nn_half_scale (dw dh : Nat) (dPix sPix : List Nat) (x y c : Nat)
    (hw : 1 ≤ dw) (hh : 1 ≤ dh) (hx : x < dw) (hy : y < dh) (hc : c < 4)
    (hd : dPix.length = 4 * (dw * dh))
    (hs : sPix.length = 4 * (2 * dw * (2 * dh))) :
    nnSrcIdx (2 * dw) dw x = 2 * x + 1 ∧
    nnSrcIdx (2 * dh) dh y = 2 * y + 1 ∧
    nn dPix sPix dw dh (2 * dw) (2 * dh) =
      .ok (nnRows sPix dw dh (2 * dw) (2 * dh) dh 0 dPix) sPix ∧
    (nnRows sPix dw dh (2 * dw) (2 * dh) dh 0 dPix)[y * (dw * 4) + x * 4
        + c]? =
      sPix[(2 * y + 1) * (2 * dw * 4) + (2 * x + 1) * 4 + c]? := by
  refine ⟨nnSrcIdx_half dw x hw, nnSrcIdx_half dh y hh, ?_, ?_⟩
  · rw [nn, if_neg (by omega)]
  · have h0 := pix_index_lt (2 * dw) (2 * dh) (2 * x + 1) (2 * y + 1)
      (by omega) (by omega)
    have hsi : (2 * y + 1) * (2 * dw * 4) + (2 * x + 1) * 4 + c <
        4 * (2 * dw * (2 * dh)) :=
      Nat.lt_of_le_of_lt
        (by omega : (2 * y + 1) * (2 * dw * 4) + (2 * x + 1) * 4 + c ≤
          (2 * y + 1) * (2 * dw * 4) + (2 * x + 1) * 4 + 3) h0
    have h0d := pix_index_lt dw dh x y hx hy
    have hlen : y * (dw * 4) + x * 4 + c < dPix.length := by
      have hle : y * (dw * 4) + x * 4 + c ≤ y * (dw * 4) + x * 4 + 3 := by
        omega
      omega
    rw [nnRows_at sPix dw dh (2 * dw) (2 * dh) dh 0 dPix x y c
        (Nat.zero_le _) (by omega) hx hc hlen,
      nnSrcIdx_half dw x hw, nnSrcIdx_half dh y hh,
      List.getD_eq_getElem?_getD,
      List.getElem?_eq_getElem (by omega : (2 * y + 1) * (2 * dw * 4) +
        (2 * x + 1) * 4 + c < sPix.length)]
    rfl

/-- Witness for `nn_half_scale` at a 2×2 → 1×1 downscale. -/
theorem nn_half_scale_witness :
    ((1 : Nat) ≤ 1 ∧ (0 : Nat) < 1 ∧ (0 : Nat) < 4 ∧
     ([0, 0, 0, 0] : List Nat).length = 4 * (1 * 1) ∧
     ([0, 1, 2, 3, 4, 5, 6, 7, 8, 9, 10, 11, 12, 13, 14, 15] :
       List Nat).length = 4 * (2 * 1 * (2 * 1))) ∧
    (nnSrcIdx (2 * 1) 1 0 = 2 * 0 + 1 ∧
     nnSrcIdx (2 * 1) 1 0 = 2 * 0 + 1 ∧
     nn [0, 0, 0, 0] [0, 1, 2, 3, 4, 5, 6, 7, 8, 9, 10, 11, 12, 13, 14, 15]
         1 1 (2 * 1) (2 * 1) =
       .ok (nnRows [0, 1, 2, 3, 4, 5, 6, 7, 8, 9, 10, 11, 12, 13, 14, 15]
           1 1 (2 * 1) (2 * 1) 1 0 [0, 0, 0, 0])
         [0, 1, 2, 3, 4, 5, 6, 7, 8, 9, 10, 11, 12, 13, 14, 15] ∧
     (nnRows [0, 1, 2, 3, 4, 5, 6, 7, 8, 9, 10, 11, 12, 13, 14, 15]
         1 1 (2 * 1) (2 * 1) 1 0 [0, 0, 0, 0])[0 * (1 * 4) + 0 * 4 + 0]? =
       [0, 1, 2, 3, 4, 5, 6, 7, 8, 9, 10, 11, 12, 13, 14,
         15][(2 * 0 + 1) * (2 * 1 * 4) + (2 * 0 + 1) * 4 + 0]?) :=
  ⟨⟨le_rfl, by norm_num, by norm_num, by decide, by decide⟩,
   nn_half_scale 1 1 [0, 0, 0, 0]
     [0, 1, 2, 3, 4, 5, 6, 7, 8, 9, 10, 11, 12, 13, 14, 15] 0 0 0
     le_rfl le_rfl (by norm_num) (by norm_num) (by norm_num)
     (by decide) (by decide)⟩

lemma nnSrcIdx_lt (S D i : Nat) (hD : 1 ≤ D) (hDS : D ≤ S) (hi : i < D) :
    nnSrcIdx S D i < S := by
  unfold nnSrcIdx
  set st := S * 65536 / D with hst
  have hst1 : 1 ≤ st := by
    rw [hst, Nat.le_div_iff_mul_le (by omega : 0 < D), one_mul]
    calc D ≤ S := hDS
      _ ≤ S * 65536 := Nat.le_mul_of_pos_right _ (by omega)
  have hDst : D * st ≤ S * 65536 := by
    rw [hst, Nat.mul_comm]
    exact Nat.div_mul_le_self _ _
  have hkey : i * st + st / 2 < S * 65536 := by
    have h1 : i * st + st ≤ D * st := by
      calc i * st + st = (i + 1) * st := by ring
        _ ≤ D * st := Nat.mul_le_mul_right _ (by omega)
    omega
  rw [Nat.div_lt_iff_lt_mul (by omega : 0 < 65536)]
  exact hkey

/-- **C10**: for `1 ≤ dw ≤ sw`, `1 ≤ dh ≤ sh` and any destination
coordinate `(dx, dy)` processed by `nnInner` or `nnProcessTiles`
(`dx < dw`, `dy < dh` — the tile loops clip to `min(·, dw/dh)`), the
fixed-point source indices satisfy `sx < sw`, `sy < sh`, the 4-byte
source read `[4·(sy·sw+sx), 4·(sy·sw+sx)+3]` lies inside the
`4·sw·sh`-byte source buffer, and the 4-byte destination write lies
inside the `4·dw·dh`-byte destination buffer. -/
theorem nn_index_bounds (sw sh dw dh dx dy : Nat)
    (hw : 1 ≤ dw) (hws : dw ≤ sw) (hh : 1 ≤ dh) (hhs : dh ≤ sh)
    (hx : dx < dw) (hy : dy < dh) :
    nnSrcIdx sw dw dx < sw ∧ nnSrcIdx sh dh dy < sh ∧
    nnSrcIdx sh dh dy * (sw * 4) + nnSrcIdx sw dw dx * 4 + 3 <
      4 * (sw * sh) ∧
    dy * (dw * 4) + dx * 4 + 3 < 4 * (dw * dh) := by
  have hsx := nnSrcIdx_lt sw dw dx hw hws hx
  have hsy := nnSrcIdx_lt sh dh dy hh hhs hy
  exact ⟨hsx, hsy, pix_index_lt sw sh _ _ hsx hsy,
    pix_index_lt dw dh dx dy hx hy⟩

/-- Witness for `nn_index_bounds` at a 3×2 → 2×1 downscale, `(dx, dy) =
(1, 0)`. -/
theorem nn_index_bounds_witness :
    ((1 : Nat) ≤ 2 ∧ (2 : Nat) ≤ 3 ∧ (1 : Nat) ≤ 1 ∧ (1 : Nat) ≤ 2 ∧
     (1 : Nat) < 2 ∧ (0 : Nat) < 1) ∧
    (nnSrcIdx 3 2 1 < 3 ∧ nnSrcIdx 2 1 0 < 2 ∧
     nnSrcIdx 2 1 0 * (3 * 4) + nnSrcIdx 3 2 1 * 4 + 3 < 4 * (3 * 2) ∧
     0 * (2 * 4) + 1 * 4 + 3 < 4 * (2 * 1)) :=
  ⟨⟨by norm_num, by norm_num, le_rfl, by norm_num, by norm_num,
    by norm_num⟩,
   nn_index_bounds 3 2 2 1 1 0 (by norm_num) (by norm_num) le_rfl
     (by norm_num) (by norm_num) (by norm_num)⟩

lemma premulOut_zero (dlcm : Nat) (ac : Accum) (h : ac.a = 0) :
    premulOut dlcm ac = [0, 0, 0, 0] := by
  simp [premulOut, h]

lemma out16_zero (dlcm : Nat) (ac : Accum) (h : ac.a = 0) :
    out16 dlcm ac = [0, 0, 0, 0] := by
  simp [out16, h]

lemma kernelRun_preserve (sample : List Nat → Nat → Nat → Accum → Option Accum)
    (out : Accum → List Nat) (sub : Nat → Nat → Nat)
    (s tt ft : List Nat) (slcm sbase : Nat) (siAt : Nat → Nat)
    (stride dbase diStep : Nat) :
    ∀ n i di fr (d d' : List Nat),
      kernelRun sample out sub s tt ft slcm sbase siAt stride dbase diStep
        n i di fr d = some d' →
      di + n * diStep < W32 →
      ∀ p, p < dbase + di → d'[p]? = d[p]? := by
  intro n
  induction n with
  | zero =>
      intro i di fr d d' h hnw p hp
      simp only [kernelRun, Option.some_inj] at h
      rw [← h]
  | succ n ih =>
      intro i di fr d d' h hnw p hp
      rw [kernelRun] at h
      cases hA : accumRun sample s sbase (siAt (tt.getD i 0)) stride
          (tt.getD i 0) (tt.getD (i + 1) 0) (sub slcm fr)
          (ft.getD i 0) slcm with
      | none => rw [hA] at h; exact absurd h (by simp)
      | some ac0 =>
          rw [hA] at h
          simp only [Option.bind_eq_bind, Option.some_bind] at h
          have hdi : u32 (di + diStep) = di + diStep :=
            u32_eq_of_lt (by
              have : di + diStep ≤ di + (n + 1) * diStep := by
                have : diStep ≤ (n + 1) * diStep :=
                  Nat.le_mul_of_pos_left _ (by omega)
                omega
              omega)
          rw [hdi] at h
          rw [ih (i + 1) (di + diStep) (ft.getD i 0) _ d' h
            (by have : (n + 1) * diStep = n * diStep + diStep := by ring
                omega)
            p (by omega)]
          exact writeBytes_get_lt _ _ _ _ (by omega)

lemma kernelRun_write (sample : List Nat → Nat → Nat → Accum → Option Accum)
    (out : Accum → List Nat) (sub : Nat → Nat → Nat)
    (s tt ft : List Nat) (slcm sbase : Nat) (siAt : Nat → Nat)
    (stride dbase diStep : Nat)
    (hout4 : ∀ ac, (out ac).length = 4) (hstep : 4 ≤ diStep) :
    ∀ n i di fr (d d' : List Nat),
      kernelRun sample out sub s tt ft slcm sbase siAt stride dbase diStep
        n i di fr d = some d' →
      di + n * diStep < W32 →
      ∀ k, k < n →
      dbase + di + k * diStep + 4 ≤ d.length →
      ∀ ac, accumRun sample s sbase (siAt (tt.getD (i + k) 0)) stride
          (tt.getD (i + k) 0) (tt.getD (i + k + 1) 0)
          (sub slcm (frChain ft fr i k)) (ft.getD (i + k) 0) slcm =
        some ac →
      ∀ j, j < 4 → d'[dbase + di + k * diStep + j]? = (out ac)[j]? := by
  intro n
  induction n with
  | zero => intro i di fr d d' h hnw k hk; omega
  | succ n ih =>
      intro i di fr d d' h hnw k hk hlen ac hac j hj
      rw [kernelRun] at h
      cases hA : accumRun sample s sbase (siAt (tt.getD i 0)) stride
          (tt.getD i 0) (tt.getD (i + 1) 0) (sub slcm fr)
          (ft.getD i 0) slcm with
      | none => rw [hA] at h; exact absurd h (by simp)
      | some ac0 =>
          rw [hA] at h
          simp only [Option.bind_eq_bind, Option.some_bind] at h
          have hsucc : (n + 1) * diStep = n * diStep + diStep := by ring
          have hdi : u32 (di + diStep) = di + diStep :=
            u32_eq_of_lt (by omega)
          rw [hdi] at h
          cases k with
          | zero =>
              have hac0 : ac0 = ac := by
                rw [show frChain ft fr i 0 = fr from rfl,
                  Nat.add_zero] at hac
                rw [hac] at hA
                exact (Option.some_inj.mp hA).symm
              subst hac0
              rw [Nat.zero_mul, Nat.add_zero]
              rw [kernelRun_preserve sample out sub s tt ft slcm sbase siAt
                stride dbase diStep n (i + 1) (di + diStep) (ft.getD i 0)
                _ d' h (by omega) (dbase + di + j) (by omega)]
              rw [show dbase + di + j = dbase + di + j from rfl]
              exact writeBytes_get_at _ _ _ _ (by rw [hout4]; omega)
                (by omega)
          | succ k =>
              have hfr : frChain ft (ft.getD i 0) (i + 1) k =
                  frChain ft fr i (k + 1) := by
                cases k with
                | zero => rfl
                | succ k2 =>
                    show ft.getD (i + 1 + k2) 0 = ft.getD (i + (k2 + 1)) 0
                    rw [show i + 1 + k2 = i + (k2 + 1) by omega]
              have hpos : dbase + di + (k + 1) * diStep + j =
                  dbase + (di + diStep) + k * diStep + j := by
                have : (k + 1) * diStep = k * diStep + diStep := by ring
                omega
              rw [hpos]
              refine ih (i + 1) (di + diStep) (ft.getD i 0) _ d' h
                (by omega) k (by omega)
                (by rw [writeBytes_length]
                    have : (k + 1) * diStep = k * diStep + diStep := by ring
                    omega)
                ac ?_ j hj
              rw [hfr]
              rw [show i + 1 + k = i + (k + 1) by omega]
              exact hac

lemma frChain_eq_frAt (ft : List Nat) (start k : Nat) :
    frChain ft (if 0 < start then ft.getD (start - 1) 0 else 0) start k =
      frAt ft start k := by
  cases k with
  | zero =>
      show (if 0 < start then ft.getD (start - 1) 0 else 0) =
        frAt ft start 0
      unfold frAt
      rcases Nat.eq_zero_or_pos start with h | h
      · subst h; simp
      · rw [if_pos h, if_neg (by omega),
          show start + 0 - 1 = start - 1 by omega]
  | succ k =>
      show ft.getD (start + k) 0 = frAt ft start (k + 1)
      unfold frAt
      rw [if_neg (by omega), show start + (k + 1) - 1 = start + k by omega]

lemma premulOut_length (dlcm : Nat) :
    ∀ ac, (premulOut dlcm ac).length = 4 := by
  intro ac; unfold premulOut; split <;> rfl

lemma out16_length (dlcm : Nat) :
    ∀ ac, (out16 dlcm ac).length = 4 := by
  intro ac; unfold out16; split <;> rfl

lemma zeros4_get (j : Nat) (hj : j < 4) :
    ([0, 0, 0, 0] : List Nat)[j]? = some 0 := by
  interval_cases j <;> rfl

/-- **C6.** Zero accumulated alpha yields an all-zero write in every
resampling kernel: in each of the four tile kernels — the premultiplied
8-bit `horzRowRGBATile` / `vertColRGBATile` and the 16-bit
straight-alpha `horzRow16NRGBATile` / `vertCol16NRGBATile` used by the
gamma path — if a run over in-range positions succeeds and the
accumulation for the destination position `k` positions into the run
produces an accumulator with zero alpha, then all four values written at
that position are `0`, for every prior content of the destination or
pooled intermediate buffer `d`. -/
theorem kernel_zero_alpha_writes_zero :
    (∀ (d s : List Nat) (dbase sbase dxStart dxEnd : Nat)
        (tt ft : List Nat) (slcm dlcm : Nat) (d' : List Nat),
      horzRowRGBATile d s dbase sbase dxStart dxEnd tt ft slcm dlcm =
        some d' →
      (dxEnd - dxStart) * 4 < W32 →
      ∀ k, k < dxEnd - dxStart →
        dbase + k * 4 + 4 ≤ d.length →
        ∀ ac, accumRun premulSample s sbase
            (u32 (tt.getD (dxStart + k) 0 * 4)) 4
            (tt.getD (dxStart + k) 0) (tt.getD (dxStart + k + 1) 0)
            (sub32 slcm (frAt ft dxStart k)) (ft.getD (dxStart + k) 0)
            slcm = some ac →
          ac.a = 0 →
          ∀ j, j < 4 → d'[dbase + k * 4 + j]? = some 0) ∧
    (∀ (d s : List Nat) (dx dyStart dyEnd sx syStart : Nat)
        (tt ft : List Nat) (slcm dlcm dStride sStride : Nat)
        (d' : List Nat),
      vertColRGBATile d s dx dyStart dyEnd sx syStart tt ft slcm dlcm
        dStride sStride = some d' →
      4 ≤ dStride →
      u32 (dyStart * dStride + dx * 4) + (dyEnd - dyStart) * dStride <
        W32 →
      ∀ k, k < dyEnd - dyStart →
        u32 (dyStart * dStride + dx * 4) + k * dStride + 4 ≤ d.length →
        ∀ ac, accumRun premulSample s 0
            (u32 (u32 (sub32 (tt.getD (dyStart + k) 0) syStart *
              sStride) + u32 (sx * 4)))
            sStride (tt.getD (dyStart + k) 0)
            (tt.getD (dyStart + k + 1) 0)
            (sub32 slcm (frAt ft dyStart k)) (ft.getD (dyStart + k) 0)
            slcm = some ac →
          ac.a = 0 →
          ∀ j, j < 4 →
            d'[u32 (dyStart * dStride + dx * 4) + k * dStride + j]? =
              some 0) ∧
    (∀ (d s : List Nat) (dbase sbase dxStart dxEnd : Nat)
        (tt ft : List Nat) (slcm dlcm : Nat) (d' : List Nat),
      horzRow16NRGBATile d s dbase sbase dxStart dxEnd tt ft slcm dlcm =
        some d' →
      (dxEnd - dxStart) * 4 < W32 →
      ∀ k, k < dxEnd - dxStart →
        dbase + k * 4 + 4 ≤ d.length →
        ∀ ac, accumRun straightSample16 s sbase
            (u32 (tt.getD (dxStart + k) 0 * 4)) 4
            (tt.getD (dxStart + k) 0) (tt.getD (dxStart + k + 1) 0)
            (sub64 slcm (frAt ft dxStart k)) (ft.getD (dxStart + k) 0)
            slcm = some ac →
          ac.a = 0 →
          ∀ j, j < 4 → d'[dbase + k * 4 + j]? = some 0) ∧
    (∀ (d s : List Nat) (dx dyStart dyEnd sx syStart : Nat)
        (tt ft : List Nat) (slcm dlcm dStride sStride : Nat)
        (d' : List Nat),
      vertCol16NRGBATile d s dx dyStart dyEnd sx syStart tt ft slcm dlcm
        dStride sStride = some d' →
      4 ≤ dStride →
      u32 (dyStart * dStride + dx * 4) + (dyEnd - dyStart) * dStride <
        W32 →
      ∀ k, k < dyEnd - dyStart →
        u32 (dyStart * dStride + dx * 4) + k * dStride + 4 ≤ d.length →
        ∀ ac, accumRun straightSample16 s 0
            (u32 (u32 (sub32 (tt.getD (dyStart + k) 0) syStart *
              sStride) + u32 (sx * 4)))
            sStride (tt.getD (dyStart + k) 0)
            (tt.getD (dyStart + k + 1) 0)
            (sub64 slcm (frAt ft dyStart k)) (ft.getD (dyStart + k) 0)
            slcm = some ac →
          ac.a = 0 →
          ∀ j, j < 4 →
            d'[u32 (dyStart * dStride + dx * 4) + k * dStride + j]? =
              some 0) := by
  refine ⟨?_, ?_, ?_, ?_⟩
  · intro d s dbase sbase dxStart dxEnd tt ft slcm dlcm d' h hnw k hk
      hlen ac hac ha j hj
    have hw := kernelRun_write premulSample (premulOut dlcm) sub32 s tt
      ft slcm sbase (fun tl => u32 (tl * 4)) 4 dbase 4
      (premulOut_length dlcm) (le_refl 4) (dxEnd - dxStart) dxStart 0
      (if 0 < dxStart then ft.getD (dxStart - 1) 0 else 0) d d' h
      (by omega) k hk (by omega) ac
      (by rw [frChain_eq_frAt]; exact hac) j hj
    rw [premulOut_zero dlcm ac ha] at hw
    exact hw.trans (zeros4_get j hj)
  · intro d s dx dyStart dyEnd sx syStart tt ft slcm dlcm dStride
      sStride d' h hstep hnw k hk hlen ac hac ha j hj
    have hw := kernelRun_write premulSample (premulOut dlcm) sub32 s tt
      ft slcm 0
      (fun tl => u32 (u32 (sub32 tl syStart * sStride) + u32 (sx * 4)))
      sStride 0 dStride (premulOut_length dlcm) hstep
      (dyEnd - dyStart) dyStart (u32 (dyStart * dStride + dx * 4))
      (if 0 < dyStart then ft.getD (dyStart - 1) 0 else 0) d d' h hnw
      k hk (by omega) ac (by rw [frChain_eq_frAt]; exact hac) j hj
    rw [Nat.zero_add] at hw
    rw [premulOut_zero dlcm ac ha] at hw
    exact hw.trans (zeros4_get j hj)
  · intro d s dbase sbase dxStart dxEnd tt ft slcm dlcm d' h hnw k hk
      hlen ac hac ha j hj
    have hw := kernelRun_write straightSample16 (out16 dlcm) sub64 s tt
      ft slcm sbase (fun tl => u32 (tl * 4)) 4 dbase 4
      (out16_length dlcm) (le_refl 4) (dxEnd - dxStart) dxStart 0
      (if 0 < dxStart then ft.getD (dxStart - 1) 0 else 0) d d' h
      (by omega) k hk (by omega) ac
      (by rw [frChain_eq_frAt]; exact hac) j hj
    rw [out16_zero dlcm ac ha] at hw
    exact hw.trans (zeros4_get j hj)
  · intro d s dx dyStart dyEnd sx syStart tt ft slcm dlcm dStride
      sStride d' h hstep hnw k hk hlen ac hac ha j hj
    have hw := kernelRun_write straightSample16 (out16 dlcm) sub64 s tt
      ft slcm 0
      (fun tl => u32 (u32 (sub32 tl syStart * sStride) + u32 (sx * 4)))
      sStride 0 dStride (out16_length dlcm) hstep
      (dyEnd - dyStart) dyStart (u32 (dyStart * dStride + dx * 4))
      (if 0 < dyStart then ft.getD (dyStart - 1) 0 else 0) d d' h hnw
      k hk (by omega) ac (by rw [frChain_eq_frAt]; exact hac) j hj
    rw [Nat.zero_add] at hw
    rw [out16_zero dlcm ac ha] at hw
    exact hw.trans (zeros4_get j hj)

/-- Witness for C6: one fully transparent source pixel `(7,7,7,0)`
scaled 1→1 over a dirty destination buffer `[9,9,9,9]` writes four
zeros. -/
theorem kernel_zero_alpha_writes_zero_witness :
    horzRowRGBATile [9, 9, 9, 9] [7, 7, 7, 0] 0 0 0 1 [0, 1] [0, 0] 1
      1 = some [0, 0, 0, 0] ∧
    ([0, 0, 0, 0] : List Nat)[(0 : Nat) + 0 * 4 + 0]? = some 0 :=
  ⟨rfl,
   kernel_zero_alpha_writes_zero.1 [9, 9, 9, 9] [7, 7, 7, 0] 0 0 0 1
     [0, 1] [0, 0] 1 1 [0, 0, 0, 0] rfl (by decide) 0 (by decide)
     (by decide) ⟨0, 0, 0, 0⟩ rfl rfl 0 (by decide)⟩

end Downscale
